import Mathlib

/-!
Verification of the BlueScope Bluetooth sniffer (`bt_sniffer.py`).

The program is embedded shallowly:
* wall-clock time (`utc_now_iso`) is modelled as a logical clock, a natural
  number that each call to the clock returns and then advances by one;
* Python dictionaries are association lists that keep insertion order,
  overwrite in place, and append on fresh keys — matching `dict` semantics;
* Python `set` is a duplicate-free list (`setAdd` adds only fresh elements);
* Python truthiness of `or` on optional strings/integers is made explicit
  (`None` and `""`/`0` are falsy);
* byte strings are lists of byte values and `bytes.hex()` is `hexEncode`;
* `json.dumps` on the composite cells is modelled by `dumpArr`/`dumpObj`
  (compact separators `", "` and `": "`, escaping quote and backslash), and
  JSON decoding of those cells by the executable parser `parseCVal`.
-/

namespace BtSniffer

/-- Python `a or b` on optional strings: `None` and the empty string are falsy. -/
def pyOrS (a b : Option String) : Option String :=
  match a with
  | some s => if s = "" then b else some s
  | none => b

/-- Python `a or b` on optional integers: `None` and `0` are falsy. -/
def pyOrI (a b : Option Int) : Option Int :=
  match a with
  | some v => if v = 0 then b else some v
  | none => b

/-- One hexadecimal digit, lowercase, as produced by Python `bytes.hex()`. -/
def hexDigit (n : Nat) : Char :=
  if n < 10 then Char.ofNat (48 + n) else Char.ofNat (87 + n)

/-- Two lowercase hex digits for one byte. -/
def hexByte (b : Nat) : String :=
  String.mk [hexDigit (b / 16 % 16), hexDigit (b % 16)]

/-- Python `bytes.hex()`: each byte rendered as two lowercase hex digits. -/
def hexEncode (bs : List Nat) : String :=
  String.join (bs.map hexByte)

/-- A manufacturer-data key: `int(cid)` when the company id parses as an
integer, the value kept as given otherwise (`bt_sniffer.py` lines 96-101). -/
inductive MfgKey where
  | int : Int → MfgKey
  | str : String → MfgKey
deriving DecidableEq

/-- `str()` of a manufacturer key, as applied by `json.dump`/`json.dumps`
when a dictionary key is an integer. -/
def mfgKeyStr (k : MfgKey) : String :=
  match k with
  | MfgKey.int i => toString i
  | MfgKey.str s => s

/-- `DeviceRecord` (`bt_sniffer.py` lines 14-34). Timestamps are logical
clock values. -/
structure DeviceRecord where
  address : String
  transport : String
  name : Option String
  rssi : Option Int
  tx_power : Option Int
  appearance : Option Int
  connectable : Option Bool
  address_type : Option String
  service_uuids : List String
  service_data : List (String × String)
  manufacturer_data : List (MfgKey × String)
  device_class : Option Int
  first_seen : Nat
  last_seen : Nat
  sightings : Nat
deriving DecidableEq

/-- `DeviceRecord.__init__`: all optional fields empty, `first_seen` and
`last_seen` both set from the single `utc_now_iso()` call, `sightings = 0`. -/
def DeviceRecord.new (address transport : String) (now : Nat) : DeviceRecord :=
  { address := address, transport := transport, name := none, rssi := none,
    tx_power := none, appearance := none, connectable := none,
    address_type := none, service_uuids := [], service_data := [],
    manufacturer_data := [], device_class := none,
    first_seen := now, last_seen := now, sightings := 0 }

/-- `DeviceRecord.update_last_seen` (lines 32-34): refresh `last_seen` from
the clock and increment `sightings` by one. -/
def DeviceRecord.update_last_seen (r : DeviceRecord) (now : Nat) : DeviceRecord :=
  { r with last_seen := now, sightings := r.sightings + 1 }

/-- The record store: a Python `dict` keyed by address, kept in insertion
order. -/
abbrev Store : Type := List (String × DeviceRecord)

/-- Dictionary lookup. -/
def storeFind : Store → String → Option DeviceRecord
  | [], _ => none
  | (k, r) :: rest, a => if k = a then some r else storeFind rest a

/-- Dictionary assignment `d[a] = r`: overwrite in place when the key is
present, append at the end otherwise. -/
def storeSet : Store → String → DeviceRecord → Store
  | [], a, r => [(a, r)]
  | (k, x) :: rest, a, r =>
      if k = a then (k, r) :: rest else (k, x) :: storeSet rest a r

/-- One BLE advertisement event as delivered to `on_detect`: the device
attributes read via `getattr` and the advertisement-data fields. Byte
payloads are byte lists. -/
structure BLEEvent where
  device_address : Option String
  device_mac_address : Option String
  device_name : Option String
  device_rssi : Option Int
  adv_local_name : Option String
  adv_rssi : Option Int
  adv_tx_power : Option Int
  adv_appearance : Option Int
  adv_connectable : Option Bool
  adv_address_type : Option String
  adv_service_uuids : List String
  adv_service_data : List (String × List Nat)
  adv_manufacturer_data : List (MfgKey × List Nat)
deriving DecidableEq

/-- Address resolution (line 70):
`getattr(device,"address",None) or getattr(device,"mac_address",None) or "UNKNOWN"`. -/
def resolveAddr (ev : BLEEvent) : String :=
  match pyOrS ev.device_address ev.device_mac_address with
  | some s => if s = "" then "UNKNOWN" else s
  | none => "UNKNOWN"

/-- Python `set.add`: insert only when the element is absent. -/
def setAdd (l : List String) (u : String) : List String :=
  if u ∈ l then l else l ++ [u]

/-- Python dictionary assignment on an association list. -/
def dictSet {α β : Type} [DecidableEq α] : List (α × β) → α → β → List (α × β)
  | [], k, v => [(k, v)]
  | (k0, v0) :: rest, k, v =>
      if k0 = k then (k0, v) :: rest else (k0, v0) :: dictSet rest k v

/-- The field updates of `on_detect` (lines 76-101), applied to a record. -/
def bleFieldUpdate (r : DeviceRecord) (ev : BLEEvent) : DeviceRecord :=
  { r with
    name := pyOrS ev.device_name (pyOrS ev.adv_local_name r.name),
    rssi := match ev.adv_rssi with
            | some v => some v
            | none => ev.device_rssi,
    tx_power := ev.adv_tx_power,
    appearance := ev.adv_appearance,
    connectable := ev.adv_connectable,
    address_type := ev.adv_address_type,
    service_uuids :=
      if ev.adv_service_uuids = [] then r.service_uuids
      else ev.adv_service_uuids.foldl setAdd r.service_uuids,
    service_data :=
      if ev.adv_service_data = [] then r.service_data
      else ev.adv_service_data.foldl
        (fun d p => dictSet d p.1 (hexEncode p.2)) r.service_data,
    manufacturer_data :=
      if ev.adv_manufacturer_data = [] then r.manufacturer_data
      else ev.adv_manufacturer_data.foldl
        (fun d p => dictSet d p.1 (hexEncode p.2)) r.manufacturer_data }

/-- One `on_detect` callback (lines 69-103) on the store plus clock:
create the record if absent (one clock tick for `__init__`), apply the field
updates, then `update_last_seen` (one clock tick). -/
def bleStep (st : Store × Nat) (ev : BLEEvent) : Store × Nat :=
  let addr := resolveAddr ev
  match storeFind st.1 addr with
  | some rec =>
      (storeSet st.1 addr ((bleFieldUpdate rec ev).update_last_seen st.2), st.2 + 1)
  | none =>
      let rec0 := DeviceRecord.new addr "BLE" st.2
      (storeSet st.1 addr ((bleFieldUpdate rec0 ev).update_last_seen (st.2 + 1)), st.2 + 2)

/-- `scan_ble` (lines 58-120): when the `bleak` capability is unavailable the
adapter returns an empty store; otherwise every event is upserted in order. -/
def scanBLE (avail : Bool) (evs : List BLEEvent) (clk : Nat) : Store × Nat :=
  if avail then evs.foldl bleStep ([], clk) else ([], clk)

/-- One Classic inquiry tuple, after the shape normalization of
lines 142-148: address, optional name, optional device class. -/
structure CTuple where
  addr : String
  name : Option String
  dev_class : Option Int
deriving DecidableEq

/-- One per-tuple upsert of `scan_classic` (lines 150-157):
`rec.name = name or rec.name`, `rec.device_class = dev_class`, then
`update_last_seen`. -/
def classicStep (st : Store × Nat) (t : CTuple) : Store × Nat :=
  match storeFind st.1 t.addr with
  | some rec =>
      (storeSet st.1 t.addr
        (({ rec with name := pyOrS t.name rec.name,
                     device_class := t.dev_class }).update_last_seen st.2),
       st.2 + 1)
  | none =>
      let rec0 := DeviceRecord.new t.addr "Classic" st.2
      (storeSet st.1 t.addr
        (({ rec0 with name := pyOrS t.name rec0.name,
                      device_class := t.dev_class }).update_last_seen (st.2 + 1)),
       st.2 + 2)

/-- `scan_classic` (lines 124-161): empty store when the `pybluez`
capability is unavailable, otherwise a per-tuple upsert fold. -/
def scanClassic (avail : Bool) (tuples : List CTuple) (clk : Nat) : Store × Nat :=
  if avail then tuples.foldl classicStep ([], clk) else ([], clk)

/-- One step of the merge loop of `main_async` (lines 223-230): on an address
collision, `existing.device_class = existing.device_class or rec.device_class`
and `existing.update_last_seen()`; otherwise the Classic record is inserted. -/
def mergeStep (st : Store × Nat) (e : String × DeviceRecord) : Store × Nat :=
  match storeFind st.1 e.1 with
  | some ex =>
      (storeSet st.1 e.1
        (({ ex with device_class := pyOrI ex.device_class e.2.device_class
          }).update_last_seen st.2),
       st.2 + 1)
  | none => (storeSet st.1 e.1 e.2, st.2)

/-- The whole merge loop, iterating the Classic store in insertion order. -/
def mergeStores (all : Store) (cls : Store) (clk : Nat) : Store × Nat :=
  cls.foldl mergeStep (all, clk)

/-- The CLI scan mode. -/
inductive Mode where
  | ble : Mode
  | classic : Mode
  | both : Mode
deriving DecidableEq

/-- The discovery phase of `main_async` (lines 205-231): run the applicable
adapters, BLE first, then merge the Classic result into the shared store. -/
def mainRun (mode : Mode) (bleAvail : Bool) (evs : List BLEEvent)
    (clsAvail : Bool) (tuples : List CTuple) (clk : Nat) : Store × Nat :=
  let p1 := if mode = Mode.classic then (([] : Store), clk)
            else scanBLE bleAvail evs clk
  if mode = Mode.ble then p1
  else
    let p2 := scanClassic clsAvail tuples p1.2
    mergeStores p1.1 p2.1 p2.2

/-- A flat 15-field output row, as returned by `DeviceRecord.to_row`. -/
structure Row where
  address : String
  transport : String
  name : Option String
  rssi : Option Int
  tx_power : Option Int
  appearance : Option Int
  connectable : Option Bool
  address_type : Option String
  device_class : Option Int
  service_uuids : Option (List String)
  service_data : Option (List (String × String))
  manufacturer_data : Option (List (MfgKey × String))
  first_seen : Nat
  last_seen : Nat
  sightings : Nat
deriving DecidableEq

/-- Lexicographic code-point comparison of two character lists: exactly the
order Python `sorted` uses on strings. Executable, unlike the `String`
ordering instances. -/
def charListLe : List Char → List Char → Bool
  | [], _ => true
  | _ :: _, [] => false
  | a :: as, b :: bs =>
      if a < b then true
      else if b < a then false
      else charListLe as bs

/-- Python string comparison `a <= b` (code-point lexicographic). -/
def pyStrLe (a b : String) : Prop := charListLe a.data b.data = true

instance : DecidableRel pyStrLe := by
  unfold pyStrLe; infer_instance

/-- Python `sorted` on a list of strings (ascending code-point order). -/
def sortedStrings (l : List String) : List String :=
  l.insertionSort pyStrLe

/-- `DeviceRecord.to_row` (lines 37-54): empty composites serialize as
`None`; a non-empty UUID set as its sorted list. -/
def DeviceRecord.to_row (r : DeviceRecord) : Row :=
  { address := r.address, transport := r.transport, name := r.name,
    rssi := r.rssi, tx_power := r.tx_power, appearance := r.appearance,
    connectable := r.connectable, address_type := r.address_type,
    device_class := r.device_class,
    service_uuids :=
      if r.service_uuids = [] then none else some (sortedStrings r.service_uuids),
    service_data :=
      if r.service_data = [] then none else some r.service_data,
    manufacturer_data :=
      if r.manufacturer_data = [] then none else some r.manufacturer_data,
    first_seen := r.first_seen, last_seen := r.last_seen,
    sightings := r.sightings }

/-- `[r.to_row() for r in records.values()]`, in insertion order. -/
def rowsOf (st : Store) : List Row :=
  st.map (fun p => p.2.to_row)

/-- A JSON value of the restricted grammar produced for the three composite
fields: `null`, an array of strings, or an object mapping strings to
strings. -/
inductive CVal where
  | null : CVal
  | arr : List String → CVal
  | obj : List (String × String) → CVal
deriving DecidableEq

/-- JSON string escaping for the characters the model escapes: the quote and
the backslash. -/
def escChar (c : Char) : List Char :=
  if c = '"' ∨ c = '\\' then ['\\', c] else [c]

/-- Escape every character of a string body. -/
def escapeChars : List Char → List Char
  | [] => []
  | c :: cs => escChar c ++ escapeChars cs

/-- `json.dumps` of a string. -/
def dumpStr (s : String) : String :=
  "\"" ++ String.mk (escapeChars s.data) ++ "\""

/-- The comma-separated element list of `json.dumps` of a string array. -/
def dumpArrElems : List String → String
  | [] => ""
  | [s] => dumpStr s
  | s :: rest => dumpStr s ++ ", " ++ dumpArrElems rest

/-- `json.dumps` of a list of strings. -/
def dumpArr (l : List String) : String :=
  "[" ++ dumpArrElems l ++ "]"

/-- The comma-separated pair list of `json.dumps` of a string-to-string
object. -/
def dumpObjElems : List (String × String) → String
  | [] => ""
  | [(k, v)] => dumpStr k ++ ": " ++ dumpStr v
  | (k, v) :: rest => dumpStr k ++ ": " ++ dumpStr v ++ ", " ++ dumpObjElems rest

/-- `json.dumps` of a string-to-string mapping. -/
def dumpObj (kvs : List (String × String)) : String :=
  "\x7b" ++ dumpObjElems kvs ++ "\x7d"

/-- Parser state while reading a JSON array of strings. -/
inductive ArrSt where
  | expectEl : ArrSt
  | inStr : List Char → ArrSt
  | afterEl : ArrSt

/-- Character-level loop decoding the body of a JSON array of strings
(everything after the opening bracket). -/
def arrLoop : ArrSt → List String → List Char → Option (List String × List Char)
  | ArrSt.expectEl, acc, c :: cs =>
      if c = '"' then arrLoop (ArrSt.inStr []) acc cs else none
  | ArrSt.inStr cur, acc, c :: cs =>
      if c = '\\' then
        match cs with
        | [] => none
        | c2 :: cs2 => arrLoop (ArrSt.inStr (cur ++ [c2])) acc cs2
      else if c = '"' then arrLoop ArrSt.afterEl (acc ++ [String.mk cur]) cs
      else arrLoop (ArrSt.inStr (cur ++ [c])) acc cs
  | ArrSt.afterEl, acc, c :: cs =>
      if c = ']' then some (acc, cs)
      else if c = ',' then
        match cs with
        | ' ' :: cs2 => arrLoop ArrSt.expectEl acc cs2
        | _ => none
      else none
  | _, _, [] => none

/-- Parser state while reading a JSON object of string keys and string
values. -/
inductive ObjSt where
  | expectKey : ObjSt
  | inKey : List Char → ObjSt
  | afterKey : List Char → ObjSt
  | inVal : List Char → List Char → ObjSt
  | afterPair : ObjSt

/-- Character-level loop decoding the body of a JSON string-to-string object
(everything after the opening brace). -/
def objLoop : ObjSt → List (String × String) → List Char →
    Option (List (String × String) × List Char)
  | ObjSt.expectKey, acc, c :: cs =>
      if c = '"' then objLoop (ObjSt.inKey []) acc cs else none
  | ObjSt.inKey cur, acc, c :: cs =>
      if c = '\\' then
        match cs with
        | [] => none
        | c2 :: cs2 => objLoop (ObjSt.inKey (cur ++ [c2])) acc cs2
      else if c = '"' then objLoop (ObjSt.afterKey cur) acc cs
      else objLoop (ObjSt.inKey (cur ++ [c])) acc cs
  | ObjSt.afterKey k, acc, c :: cs =>
      if c = ':' then
        match cs with
        | ' ' :: '"' :: cs2 => objLoop (ObjSt.inVal k []) acc cs2
        | _ => none
      else none
  | ObjSt.inVal k cur, acc, c :: cs =>
      if c = '\\' then
        match cs with
        | [] => none
        | c2 :: cs2 => objLoop (ObjSt.inVal k (cur ++ [c2])) acc cs2
      else if c = '"' then
        objLoop ObjSt.afterPair (acc ++ [(String.mk k, String.mk cur)]) cs
      else objLoop (ObjSt.inVal k (cur ++ [c])) acc cs
  | ObjSt.afterPair, acc, c :: cs =>
      if c = '}' then some (acc, cs)
      else if c = ',' then
        match cs with
        | ' ' :: cs2 => objLoop ObjSt.expectKey acc cs2
        | _ => none
      else none
  | _, _, [] => none

/-- Decode one CSV cell as JSON text, for the restricted grammar the program
produces (`null`, array of strings, object of strings). Any other text,
including the empty cell, fails. -/
def parseCVal (s : String) : Option CVal :=
  match s.data with
  | '[' :: cs =>
      if cs = [']'] then some (CVal.arr [])
      else
        match arrLoop ArrSt.expectEl [] cs with
        | some (l, []) => some (CVal.arr l)
        | _ => none
  | '{' :: cs =>
      if cs = ['}'] then some (CVal.obj [])
      else
        match objLoop ObjSt.expectKey [] cs with
        | some (l, []) => some (CVal.obj l)
        | _ => none
  | cs => if cs = ['n', 'u', 'l', 'l'] then some CVal.null else none

/-- Python `str()` of an optional string as the `csv` module writes it:
`None` becomes the empty cell. -/
def pyCellS : Option String → String
  | some s => s
  | none => ""

/-- Python `str()` of an optional integer as the `csv` module writes it. -/
def pyCellI : Option Int → String
  | some v => toString v
  | none => ""

/-- Python `str()` of an optional boolean as the `csv` module writes it. -/
def pyCellB : Option Bool → String
  | some true => "True"
  | some false => "False"
  | none => ""

/-- One CSV data row: the 15 cells as text. -/
structure CsvRow where
  address : String
  transport : String
  name : String
  rssi : String
  tx_power : String
  appearance : String
  connectable : String
  address_type : String
  device_class : String
  service_uuids : String
  service_data : String
  manufacturer_data : String
  first_seen : String
  last_seen : String
  sightings : String
deriving DecidableEq

/-- `write_csv` row encoding (lines 169-189): composite fields become
`json.dumps` cells when present; `None` is written as the empty cell by
`csv.DictWriter`; integer manufacturer keys are stringified by `dumps`. -/
def csvOfRow (r : Row) : CsvRow :=
  { address := r.address, transport := r.transport,
    name := pyCellS r.name, rssi := pyCellI r.rssi,
    tx_power := pyCellI r.tx_power, appearance := pyCellI r.appearance,
    connectable := pyCellB r.connectable,
    address_type := pyCellS r.address_type,
    device_class := pyCellI r.device_class,
    service_uuids :=
      match r.service_uuids with
      | some l => dumpArr l
      | none => "",
    service_data :=
      match r.service_data with
      | some kvs => dumpObj kvs
      | none => "",
    manufacturer_data :=
      match r.manufacturer_data with
      | some kvs => dumpObj (kvs.map (fun p => (mfgKeyStr p.1, p.2)))
      | none => "",
    first_seen := toString r.first_seen, last_seen := toString r.last_seen,
    sightings := toString r.sightings }

/-- The CSV data rows of a store. -/
def csvRowsOf (st : Store) : List CsvRow :=
  (rowsOf st).map csvOfRow

/-- The native JSON value of the `service_uuids` field in the structured
output. -/
def rowUuidsVal (r : Row) : CVal :=
  match r.service_uuids with
  | some l => CVal.arr l
  | none => CVal.null

/-- The native JSON value of the `service_data` field in the structured
output. -/
def rowSDataVal (r : Row) : CVal :=
  match r.service_data with
  | some kvs => CVal.obj kvs
  | none => CVal.null

/-- The native JSON value of the `manufacturer_data` field in the structured
output (integer keys stringified by `json.dump`). -/
def rowMDataVal (r : Row) : CVal :=
  match r.manufacturer_data with
  | some kvs => CVal.obj (kvs.map (fun p => (mfgKeyStr p.1, p.2)))
  | none => CVal.null

/-- The content of one output file, at the structural level: the JSON file
holds the array of rows, the CSV file the data rows under the fixed
header. -/
inductive OutContent where
  | jsonFile : List Row → OutContent
  | csvFile : List CsvRow → OutContent
deriving DecidableEq

/-- The output decision of `main_async` (lines 238-250): write to the given
JSON and/or CSV paths; when neither is supplied, write one default
timestamped JSON file. -/
def outputsOf (jsonPath csvPath : Option String) (ts : String) (st : Store) :
    List (String × OutContent) :=
  (match jsonPath with
   | some p => [(p, OutContent.jsonFile (rowsOf st))]
   | none => []) ++
  (match csvPath with
   | some p => [(p, OutContent.csvFile (csvRowsOf st))]
   | none => []) ++
  (match jsonPath, csvPath with
   | none, none => [("bt_scan_" ++ ts ++ ".json", OutContent.jsonFile (rowsOf st))]
   | _, _ => [])

/-- The `sightings` counter of the record stored at an address, `0` when the
address is absent. -/
def sightingsOf (st : Store) (a : String) : Nat :=
  match storeFind st a with
  | some r => r.sightings
  | none => 0

/-- How many BLE events of a trace resolve to a given address. -/
def countBLE (a : String) (evs : List BLEEvent) : Nat :=
  (evs.filter (fun e => resolveAddr e = a)).length

/-- How many Classic inquiry tuples of a batch carry a given address. -/
def countCT (a : String) (ts : List CTuple) : Nat :=
  (ts.filter (fun t => t.addr = a)).length

/-- Per-record well-formedness at a clock value: the record knows its own
key, its timestamps are ordered and in the past, it has been sighted at
least once, and its UUID set is duplicate-free. -/
def recOK (a : String) (r : DeviceRecord) (clk : Nat) : Prop :=
  r.address = a ∧ r.first_seen ≤ r.last_seen ∧ r.last_seen < clk ∧
    1 ≤ r.sightings ∧ r.service_uuids.Nodup

instance (a : String) (r : DeviceRecord) (clk : Nat) : Decidable (recOK a r clk) := by
  unfold recOK; infer_instance

/-- Store invariant: addresses are unique keys and every stored record is
well-formed. -/
def Inv (st : Store) (clk : Nat) : Prop :=
  (st.map Prod.fst).Nodup ∧ ∀ p ∈ st, recOK p.1 p.2 clk

instance (st : Store) (clk : Nat) : Decidable (Inv st clk) := by
  unfold Inv
  have : DecidablePred (fun p : String × DeviceRecord => recOK p.1 p.2 clk) := by
    intro p; infer_instance
  infer_instance

/-- BLE-origin invariant: every record of a BLE-produced store has transport
`"BLE"` and no device class. -/
def InvB (st : Store) : Prop :=
  ∀ p ∈ st, p.2.transport = "BLE" ∧ p.2.device_class = none

/-- A Classic-store entry as fed to the merge loop, at a clock value. -/
def entryOK (e : String × DeviceRecord) (clk : Nat) : Prop :=
  recOK e.1 e.2 clk

instance (e : String × DeviceRecord) (clk : Nat) : Decidable (entryOK e clk) := by
  unfold entryOK; infer_instance

/-- A UUID is recorded for an address in a store. -/
def uuidIn (st : Store) (a u : String) : Prop :=
  ∃ r, storeFind st a = some r ∧ u ∈ r.service_uuids

/-- The record written by `on_detect` at the resolved address. -/
def bleStepRec (st : Store × Nat) (ev : BLEEvent) : DeviceRecord :=
  match storeFind st.1 (resolveAddr ev) with
  | some rec => (bleFieldUpdate rec ev).update_last_seen st.2
  | none =>
      (bleFieldUpdate (DeviceRecord.new (resolveAddr ev) "BLE" st.2) ev).update_last_seen
        (st.2 + 1)

/-- The record written by a Classic per-tuple upsert. -/
def classicStepRec (st : Store × Nat) (t : CTuple) : DeviceRecord :=
  match storeFind st.1 t.addr with
  | some rec =>
      ({ rec with name := pyOrS t.name rec.name,
                  device_class := t.dev_class }).update_last_seen st.2
  | none =>
      ({ DeviceRecord.new t.addr "Classic" st.2 with
           name := pyOrS t.name none,
           device_class := t.dev_class }).update_last_seen (st.2 + 1)

/-! ### Concrete inputs used by counterexamples and witnesses -/

/-- A BLE advertisement event carrying only a device address. -/
def evAA : BLEEvent :=
  ⟨some "AA:BB", none, none, none, none, none, none, none, none, none, [], [], []⟩

/-- The same event with an advertisement-level RSSI of -50. -/
def evAAr50 : BLEEvent := { evAA with adv_rssi := some (-50) }

/-- An identity-less event advertising service UUID `u1`. -/
def evU1 : BLEEvent :=
  ⟨none, none, none, none, none, none, none, none, none, none, ["u1"], [], []⟩

/-- An identity-less event advertising service UUID `u2`. -/
def evU2 : BLEEvent := { evU1 with adv_service_uuids := ["u2"] }

/-- A Classic inquiry tuple with no name and no class. -/
def ctAA : CTuple := ⟨"AA:BB", none, none⟩

/-- A Classic inquiry tuple carrying device class 42. -/
def ctAA42 : CTuple := ⟨"AA:BB", none, some 42⟩

/-- A Classic tuple naming the device `First`. -/
def ctAAFirst : CTuple := ⟨"AA:BB", some "First", none⟩

/-- A Classic tuple naming the device `Second`. -/
def ctAASecond : CTuple := ⟨"AA:BB", some "Second", none⟩

/-- A Classic tuple for scenario B: name present, no class support. -/
def ctPhone : CTuple := ⟨"11:22", some "Phone", none⟩

/-- A record whose UUID set arrived out of order. -/
def recW : DeviceRecord :=
  { DeviceRecord.new "X" "BLE" 0 with service_uuids := ["b", "a"] }

/-- A record with all three composite fields non-empty. -/
def recU : DeviceRecord :=
  { DeviceRecord.new "AA" "BLE" 0 with
      service_uuids := ["b", "a"],
      service_data := [("u", "0a")],
      manufacturer_data := [(MfgKey.int 76, "ff")] }

/-! ### Store basics -/

theorem storeFind_storeSet (st : Store) (a : String) (r : DeviceRecord)
    (b : String) :
    storeFind (storeSet st a r) b = if a = b then some r else storeFind st b := by
  induction st with
  | nil =>
      by_cases hb : a = b <;> simp [storeSet, storeFind, hb]
  | cons p rest ih =>
      obtain ⟨k, x⟩ := p
      by_cases hk : k = a
      · subst hk
        by_cases hb : k = b <;> simp [storeSet, storeFind, hb]
      · by_cases hb : k = b
        · subst hb
          have hab : ¬ a = k := fun h => hk h.symm
          simp [storeSet, storeFind, hk, hab]
        · simp [storeSet, storeFind, hk, hb, ih]

theorem storeFind_none_iff (st : Store) (a : String) :
    storeFind st a = none ↔ a ∉ st.map Prod.fst := by
  induction st with
  | nil => simp [storeFind]
  | cons p rest ih =>
      obtain ⟨k, x⟩ := p
      by_cases hk : k = a
      · subst hk; simp [storeFind]
      · have hak : ¬ a = k := fun h => hk h.symm
        simp [storeFind, hk, hak, ih]

theorem storeFind_mem (st : Store) (a : String) (r : DeviceRecord)
    (h : storeFind st a = some r) : (a, r) ∈ st := by
  induction st with
  | nil => simp [storeFind] at h
  | cons p rest ih =>
      obtain ⟨k, x⟩ := p
      by_cases hk : k = a
      · subst hk
        simp [storeFind] at h
        simp [h]
      · simp [storeFind, hk] at h
        exact List.mem_cons_of_mem _ (ih h)

theorem storeSet_keys_found (st : Store) (a : String) (r : DeviceRecord)
    (h : (storeFind st a).isSome = true) :
    (storeSet st a r).map Prod.fst = st.map Prod.fst := by
  induction st with
  | nil => simp [storeFind] at h
  | cons p rest ih =>
      obtain ⟨k, x⟩ := p
      by_cases hk : k = a
      · simp [storeSet, hk]
      · simp [storeFind, hk] at h
        simp [storeSet, hk, ih h]

theorem storeSet_keys_fresh (st : Store) (a : String) (r : DeviceRecord)
    (h : storeFind st a = none) :
    (storeSet st a r).map Prod.fst = st.map Prod.fst ++ [a] := by
  induction st with
  | nil => simp [storeSet]
  | cons p rest ih =>
      obtain ⟨k, x⟩ := p
      by_cases hk : k = a
      · subst hk; simp [storeFind] at h
      · simp [storeFind, hk] at h
        simp [storeSet, hk, ih h]

theorem mem_storeSet (st : Store) (a : String) (r : DeviceRecord)
    (p : String × DeviceRecord) (h : p ∈ storeSet st a r) :
    p ∈ st ∨ p = (a, r) := by
  induction st with
  | nil =>
      simp [storeSet] at h
      exact Or.inr h
  | cons q rest ih =>
      obtain ⟨k, x⟩ := q
      by_cases hk : k = a
      · subst hk
        simp [storeSet] at h
        rcases h with h | h
        · exact Or.inr (by simp [h])
        · exact Or.inl (List.mem_cons_of_mem _ h)
      · simp [storeSet, hk] at h
        rcases h with h | h
        · exact Or.inl (by simp [h])
        · rcases ih h with h2 | h2
          · exact Or.inl (List.mem_cons_of_mem _ h2)
          · exact Or.inr h2

/-! ### Single-step characterizations -/

theorem find_bleStep (st : Store × Nat) (ev : BLEEvent) (b : String) :
    storeFind (bleStep st ev).1 b =
      if resolveAddr ev = b then some (bleStepRec st ev)
      else storeFind st.1 b := by
  unfold bleStep bleStepRec
  cases h : storeFind st.1 (resolveAddr ev) <;>
    simp [h, storeFind_storeSet]

theorem find_classicStep (st : Store × Nat) (t : CTuple) (b : String) :
    storeFind (classicStep st t).1 b =
      if t.addr = b then some (classicStepRec st t)
      else storeFind st.1 b := by
  unfold classicStep classicStepRec
  cases h : storeFind st.1 t.addr <;>
    simp [h, storeFind_storeSet, DeviceRecord.new]

/-! ### Clock monotonicity -/

theorem clock_bleStep (st : Store × Nat) (ev : BLEEvent) :
    st.2 ≤ (bleStep st ev).2 := by
  unfold bleStep
  cases h : storeFind st.1 (resolveAddr ev) <;> simp [h] <;> omega

theorem clock_bleFold (evs : List BLEEvent) (st : Store × Nat) :
    st.2 ≤ (evs.foldl bleStep st).2 := by
  induction evs generalizing st with
  | nil => simp
  | cons ev rest ih =>
      exact le_trans (clock_bleStep st ev) (ih (bleStep st ev))

theorem clock_classicStep (st : Store × Nat) (t : CTuple) :
    st.2 ≤ (classicStep st t).2 := by
  unfold classicStep
  cases h : storeFind st.1 t.addr <;> simp [h] <;> omega

theorem clock_classicFold (ts : List CTuple) (st : Store × Nat) :
    st.2 ≤ (ts.foldl classicStep st).2 := by
  induction ts generalizing st with
  | nil => simp
  | cons t rest ih =>
      exact le_trans (clock_classicStep st t) (ih (classicStep st t))

theorem clock_mergeStep (st : Store × Nat) (e : String × DeviceRecord) :
    st.2 ≤ (mergeStep st e).2 := by
  unfold mergeStep
  cases h : storeFind st.1 e.1 <;> simp [h]

/-! ### Sightings accounting -/

theorem sightingsOf_bleStep (st : Store × Nat) (ev : BLEEvent) (b : String) :
    sightingsOf (bleStep st ev).1 b =
      sightingsOf st.1 b + (if resolveAddr ev = b then 1 else 0) := by
  unfold sightingsOf
  rw [find_bleStep]
  by_cases hb : resolveAddr ev = b
  · subst hb
    unfold bleStepRec
    cases h : storeFind st.1 (resolveAddr ev) <;>
      simp [h, bleFieldUpdate, DeviceRecord.update_last_seen, DeviceRecord.new]
  · simp [hb]

theorem sightingsOf_bleFold (evs : List BLEEvent) (st : Store × Nat) (b : String) :
    sightingsOf (evs.foldl bleStep st).1 b =
      sightingsOf st.1 b + countBLE b evs := by
  induction evs generalizing st with
  | nil => simp [countBLE]
  | cons ev rest ih =>
      rw [List.foldl_cons, ih (bleStep st ev), sightingsOf_bleStep]
      unfold countBLE
      by_cases hb : resolveAddr ev = b <;> simp [List.filter, hb] <;> omega

theorem sightingsOf_classicStep (st : Store × Nat) (t : CTuple) (b : String) :
    sightingsOf (classicStep st t).1 b =
      sightingsOf st.1 b + (if t.addr = b then 1 else 0) := by
  unfold sightingsOf
  rw [find_classicStep]
  by_cases hb : t.addr = b
  · subst hb
    unfold classicStepRec
    cases h : storeFind st.1 t.addr <;>
      simp [h, DeviceRecord.update_last_seen, DeviceRecord.new]
  · simp [hb]

theorem sightingsOf_classicFold (ts : List CTuple) (st : Store × Nat) (b : String) :
    sightingsOf (ts.foldl classicStep st).1 b =
      sightingsOf st.1 b + countCT b ts := by
  induction ts generalizing st with
  | nil => simp [countCT]
  | cons t rest ih =>
      rw [List.foldl_cons, ih (classicStep st t), sightingsOf_classicStep]
      unfold countCT
      by_cases hb : t.addr = b <;> simp [List.filter, hb] <;> omega

/-! ### Presence -/

theorem present_bleStep (st : Store × Nat) (ev : BLEEvent) (b : String) :
    (storeFind (bleStep st ev).1 b).isSome = true ↔
      (storeFind st.1 b).isSome = true ∨ resolveAddr ev = b := by
  rw [find_bleStep]
  by_cases hb : resolveAddr ev = b <;> simp [hb]

theorem present_bleFold (evs : List BLEEvent) (st : Store × Nat) (b : String) :
    (storeFind (evs.foldl bleStep st).1 b).isSome = true ↔
      (storeFind st.1 b).isSome = true ∨ 0 < countBLE b evs := by
  induction evs generalizing st with
  | nil => simp [countBLE]
  | cons ev rest ih =>
      rw [List.foldl_cons, ih (bleStep st ev)]
      rw [present_bleStep]
      unfold countBLE
      by_cases hb : resolveAddr ev = b <;> simp [List.filter, hb] <;> tauto

theorem present_classicStep (st : Store × Nat) (t : CTuple) (b : String) :
    (storeFind (classicStep st t).1 b).isSome = true ↔
      (storeFind st.1 b).isSome = true ∨ t.addr = b := by
  rw [find_classicStep]
  by_cases hb : t.addr = b <;> simp [hb]

theorem present_classicFold (ts : List CTuple) (st : Store × Nat) (b : String) :
    (storeFind (ts.foldl classicStep st).1 b).isSome = true ↔
      (storeFind st.1 b).isSome = true ∨ 0 < countCT b ts := by
  induction ts generalizing st with
  | nil => simp [countCT]
  | cons t rest ih =>
      rw [List.foldl_cons, ih (classicStep st t)]
      rw [present_classicStep]
      unfold countCT
      by_cases hb : t.addr = b <;> simp [List.filter, hb] <;> tauto

/-! ### Record-shape simp lemmas -/

@[simp] theorem bleFieldUpdate_address (r : DeviceRecord) (ev : BLEEvent) :
    (bleFieldUpdate r ev).address = r.address := rfl

@[simp] theorem bleFieldUpdate_transport (r : DeviceRecord) (ev : BLEEvent) :
    (bleFieldUpdate r ev).transport = r.transport := rfl

@[simp] theorem bleFieldUpdate_device_class (r : DeviceRecord) (ev : BLEEvent) :
    (bleFieldUpdate r ev).device_class = r.device_class := rfl

@[simp] theorem bleFieldUpdate_first_seen (r : DeviceRecord) (ev : BLEEvent) :
    (bleFieldUpdate r ev).first_seen = r.first_seen := rfl

@[simp] theorem bleFieldUpdate_sightings (r : DeviceRecord) (ev : BLEEvent) :
    (bleFieldUpdate r ev).sightings = r.sightings := rfl

@[simp] theorem update_last_seen_address (r : DeviceRecord) (now : Nat) :
    (r.update_last_seen now).address = r.address := rfl

@[simp] theorem update_last_seen_transport (r : DeviceRecord) (now : Nat) :
    (r.update_last_seen now).transport = r.transport := rfl

@[simp] theorem update_last_seen_first_seen (r : DeviceRecord) (now : Nat) :
    (r.update_last_seen now).first_seen = r.first_seen := rfl

@[simp] theorem update_last_seen_last_seen (r : DeviceRecord) (now : Nat) :
    (r.update_last_seen now).last_seen = now := rfl

@[simp] theorem update_last_seen_sightings (r : DeviceRecord) (now : Nat) :
    (r.update_last_seen now).sightings = r.sightings + 1 := rfl

@[simp] theorem update_last_seen_uuids (r : DeviceRecord) (now : Nat) :
    (r.update_last_seen now).service_uuids = r.service_uuids := rfl

@[simp] theorem update_last_seen_device_class (r : DeviceRecord) (now : Nat) :
    (r.update_last_seen now).device_class = r.device_class := rfl

@[simp] theorem update_last_seen_name (r : DeviceRecord) (now : Nat) :
    (r.update_last_seen now).name = r.name := rfl

@[simp] theorem update_last_seen_rssi (r : DeviceRecord) (now : Nat) :
    (r.update_last_seen now).rssi = r.rssi := rfl

@[simp] theorem update_last_seen_tx_power (r : DeviceRecord) (now : Nat) :
    (r.update_last_seen now).tx_power = r.tx_power := rfl

@[simp] theorem update_last_seen_appearance (r : DeviceRecord) (now : Nat) :
    (r.update_last_seen now).appearance = r.appearance := rfl

@[simp] theorem update_last_seen_connectable (r : DeviceRecord) (now : Nat) :
    (r.update_last_seen now).connectable = r.connectable := rfl

@[simp] theorem update_last_seen_address_type (r : DeviceRecord) (now : Nat) :
    (r.update_last_seen now).address_type = r.address_type := rfl

@[simp] theorem update_last_seen_service_data (r : DeviceRecord) (now : Nat) :
    (r.update_last_seen now).service_data = r.service_data := rfl

@[simp] theorem update_last_seen_mfg_data (r : DeviceRecord) (now : Nat) :
    (r.update_last_seen now).manufacturer_data = r.manufacturer_data := rfl

/-! ### Python-set lemmas -/

theorem mem_setAdd_of_mem {l : List String} {u : String} (v : String)
    (h : u ∈ l) : u ∈ setAdd l v := by
  unfold setAdd
  split
  · exact h
  · exact List.mem_append_left _ h

theorem mem_setAdd_self (l : List String) (v : String) : v ∈ setAdd l v := by
  unfold setAdd
  split
  · assumption
  · simp

theorem mem_setAddFold {u : String} (xs l : List String)
    (h : u ∈ l ∨ u ∈ xs) : u ∈ xs.foldl setAdd l := by
  induction xs generalizing l with
  | nil =>
      rcases h with h | h
      · simpa using h
      · simp at h
  | cons x rest ih =>
      rw [List.foldl_cons]
      rcases h with h | h
      · exact ih _ (Or.inl (mem_setAdd_of_mem x h))
      · rcases List.mem_cons.mp h with h | h
        · subst h
          exact ih _ (Or.inl (mem_setAdd_self l u))
        · exact ih _ (Or.inr h)

theorem setAdd_nodup {l : List String} (u : String) (h : l.Nodup) :
    (setAdd l u).Nodup := by
  unfold setAdd
  split
  · exact h
  · next hu => simp [List.nodup_append, h, hu]

theorem setAddFold_nodup (xs : List String) {l : List String} (h : l.Nodup) :
    (xs.foldl setAdd l).Nodup := by
  induction xs generalizing l with
  | nil => simpa using h
  | cons x rest ih =>
      rw [List.foldl_cons]
      exact ih (setAdd_nodup x h)

theorem bleFieldUpdate_uuids_nodup (r : DeviceRecord) (ev : BLEEvent)
    (h : r.service_uuids.Nodup) : (bleFieldUpdate r ev).service_uuids.Nodup := by
  simp only [bleFieldUpdate]
  split
  · exact h
  · exact setAddFold_nodup _ h

theorem bleFieldUpdate_uuids_mem (r : DeviceRecord) (ev : BLEEvent) (u : String)
    (h : u ∈ r.service_uuids ∨ u ∈ ev.adv_service_uuids) :
    u ∈ (bleFieldUpdate r ev).service_uuids := by
  simp only [bleFieldUpdate]
  split
  · next he =>
      rcases h with h | h
      · exact h
      · rw [he] at h; simp at h
  · exact mem_setAddFold _ _ h

/-! ### Invariant preservation -/

theorem recOK_mono {a : String} {r : DeviceRecord} {c c' : Nat}
    (h : recOK a r c) (hc : c ≤ c') : recOK a r c' := by
  obtain ⟨h1, h2, h3, h4, h5⟩ := h
  exact ⟨h1, h2, lt_of_lt_of_le h3 hc, h4, h5⟩

theorem Inv_empty (clk : Nat) : Inv [] clk := by
  constructor
  · simp
  · intro p hp; simp at hp

theorem Inv_bleStep (st : Store × Nat) (ev : BLEEvent) (h : Inv st.1 st.2) :
    Inv (bleStep st ev).1 (bleStep st ev).2 := by
  obtain ⟨hkeys, hrec⟩ := h
  unfold bleStep
  cases hf : storeFind st.1 (resolveAddr ev) with
  | some rec =>
      simp only [hf]
      have hOK : recOK (resolveAddr ev) rec st.2 := hrec _ (storeFind_mem _ _ _ hf)
      obtain ⟨ha, h12, h2c, hs, hnd⟩ := hOK
      constructor
      · rw [storeSet_keys_found st.1 _ _ (by simp [hf])]
        exact hkeys
      · intro p hp
        rcases mem_storeSet _ _ _ p hp with hmem | heq
        · exact recOK_mono (hrec p hmem) (by omega)
        · subst heq
          refine ⟨by simp [ha], by simp <;> omega, by simp <;> omega, by simp, ?_⟩
          exact bleFieldUpdate_uuids_nodup _ _ hnd
  | none =>
      simp only [hf]
      constructor
      · rw [storeSet_keys_fresh st.1 _ _ hf]
        have : resolveAddr ev ∉ st.1.map Prod.fst := (storeFind_none_iff _ _).mp hf
        simp [List.nodup_append, hkeys, this]
      · intro p hp
        rcases mem_storeSet _ _ _ p hp with hmem | heq
        · exact recOK_mono (hrec p hmem) (by omega)
        · subst heq
          refine ⟨by simp [DeviceRecord.new], by simp [DeviceRecord.new],
                  by simp, by simp, ?_⟩
          exact bleFieldUpdate_uuids_nodup _ _ (by simp [DeviceRecord.new])

theorem Inv_bleFold (evs : List BLEEvent) (st : Store × Nat)
    (h : Inv st.1 st.2) :
    Inv (evs.foldl bleStep st).1 (evs.foldl bleStep st).2 := by
  induction evs generalizing st with
  | nil => simpa using h
  | cons ev rest ih =>
      rw [List.foldl_cons]
      exact ih _ (Inv_bleStep st ev h)

theorem Inv_scanBLE (avail : Bool) (evs : List BLEEvent) (clk : Nat) :
    Inv (scanBLE avail evs clk).1 (scanBLE avail evs clk).2 := by
  unfold scanBLE
  split
  · exact Inv_bleFold evs ([], clk) (Inv_empty clk)
  · exact Inv_empty clk

theorem Inv_classicStep (st : Store × Nat) (t : CTuple) (h : Inv st.1 st.2) :
    Inv (classicStep st t).1 (classicStep st t).2 := by
  obtain ⟨hkeys, hrec⟩ := h
  unfold classicStep
  cases hf : storeFind st.1 t.addr with
  | some rec =>
      simp only [hf]
      have hOK : recOK t.addr rec st.2 := hrec _ (storeFind_mem _ _ _ hf)
      obtain ⟨ha, h12, h2c, hs, hnd⟩ := hOK
      constructor
      · rw [storeSet_keys_found st.1 _ _ (by simp [hf])]
        exact hkeys
      · intro p hp
        rcases mem_storeSet _ _ _ p hp with hmem | heq
        · exact recOK_mono (hrec p hmem) (by omega)
        · subst heq
          exact ⟨by simp [ha], by simp <;> omega, by simp <;> omega, by simp, by simpa using hnd⟩
  | none =>
      simp only [hf]
      constructor
      · rw [storeSet_keys_fresh st.1 _ _ hf]
        have : t.addr ∉ st.1.map Prod.fst := (storeFind_none_iff _ _).mp hf
        simp [List.nodup_append, hkeys, this]
      · intro p hp
        rcases mem_storeSet _ _ _ p hp with hmem | heq
        · exact recOK_mono (hrec p hmem) (by omega)
        · subst heq
          exact ⟨by simp [DeviceRecord.new], by simp [DeviceRecord.new],
                 by simp, by simp, by simp [DeviceRecord.new]⟩

theorem Inv_classicFold (ts : List CTuple) (st : Store × Nat)
    (h : Inv st.1 st.2) :
    Inv (ts.foldl classicStep st).1 (ts.foldl classicStep st).2 := by
  induction ts generalizing st with
  | nil => simpa using h
  | cons t rest ih =>
      rw [List.foldl_cons]
      exact ih _ (Inv_classicStep st t h)

theorem Inv_scanClassic (avail : Bool) (ts : List CTuple) (clk : Nat) :
    Inv (scanClassic avail ts clk).1 (scanClassic avail ts clk).2 := by
  unfold scanClassic
  split
  · exact Inv_classicFold ts ([], clk) (Inv_empty clk)
  · exact Inv_empty clk

theorem Inv_mergeStep (st : Store × Nat) (e : String × DeviceRecord)
    (h : Inv st.1 st.2) (he : entryOK e st.2) :
    Inv (mergeStep st e).1 (mergeStep st e).2 := by
  obtain ⟨hkeys, hrec⟩ := h
  unfold mergeStep
  cases hf : storeFind st.1 e.1 with
  | some ex =>
      simp only [hf]
      have hOK : recOK e.1 ex st.2 := hrec _ (storeFind_mem _ _ _ hf)
      obtain ⟨ha, h12, h2c, hs, hnd⟩ := hOK
      constructor
      · rw [storeSet_keys_found st.1 _ _ (by simp [hf])]
        exact hkeys
      · intro p hp
        rcases mem_storeSet _ _ _ p hp with hmem | heq
        · exact recOK_mono (hrec p hmem) (by omega)
        · subst heq
          exact ⟨by simp [ha], by simp <;> omega, by simp <;> omega, by simp, by simpa using hnd⟩
  | none =>
      simp only [hf]
      obtain ⟨ha, h12, h2c, hs, hnd⟩ := he
      constructor
      · rw [storeSet_keys_fresh st.1 _ _ hf]
        have : e.1 ∉ st.1.map Prod.fst := (storeFind_none_iff _ _).mp hf
        simp [List.nodup_append, hkeys, this]
      · intro p hp
        rcases mem_storeSet _ _ _ p hp with hmem | heq
        · exact hrec p hmem
        · subst heq
          exact ⟨ha, h12, h2c, hs, hnd⟩

theorem entryOK_mono {e : String × DeviceRecord} {c c' : Nat}
    (h : entryOK e c) (hc : c ≤ c') : entryOK e c' :=
  recOK_mono h hc

theorem Inv_mergeFold (entries : Store) (st : Store × Nat)
    (h : Inv st.1 st.2) (he : ∀ e ∈ entries, entryOK e st.2) :
    Inv (entries.foldl mergeStep st).1 (entries.foldl mergeStep st).2 := by
  induction entries generalizing st with
  | nil => simpa using h
  | cons e rest ih =>
      rw [List.foldl_cons]
      refine ih _ (Inv_mergeStep st e h (he e (by simp))) ?_
      intro e2 he2
      exact entryOK_mono (he e2 (List.mem_cons_of_mem _ he2)) (clock_mergeStep st e)

/-! ### BLE-origin invariant -/

theorem InvB_bleStep (st : Store × Nat) (ev : BLEEvent) (h : InvB st.1) :
    InvB (bleStep st ev).1 := by
  unfold bleStep
  cases hf : storeFind st.1 (resolveAddr ev) with
  | some rec =>
      simp only [hf]
      intro p hp
      rcases mem_storeSet _ _ _ p hp with hmem | heq
      · exact h p hmem
      · subst heq
        have := h _ (storeFind_mem _ _ _ hf)
        simpa using this
  | none =>
      simp only [hf]
      intro p hp
      rcases mem_storeSet _ _ _ p hp with hmem | heq
      · exact h p hmem
      · subst heq
        simp [DeviceRecord.new]

theorem InvB_bleFold (evs : List BLEEvent) (st : Store × Nat) (h : InvB st.1) :
    InvB (evs.foldl bleStep st).1 := by
  induction evs generalizing st with
  | nil => simpa using h
  | cons ev rest ih =>
      rw [List.foldl_cons]
      exact ih _ (InvB_bleStep st ev h)

theorem InvB_scanBLE (avail : Bool) (evs : List BLEEvent) (clk : Nat) :
    InvB (scanBLE avail evs clk).1 := by
  unfold scanBLE
  split
  · exact InvB_bleFold evs ([], clk) (by intro p hp; simp at hp)
  · intro p hp; simp at hp

/-! ### Merge-loop characterization -/

theorem find_mergeStep_ne (st : Store × Nat) (e : String × DeviceRecord)
    (a : String) (h : ¬ e.1 = a) :
    storeFind (mergeStep st e).1 a = storeFind st.1 a := by
  unfold mergeStep
  cases hf : storeFind st.1 e.1 <;> simp [hf, storeFind_storeSet, h]

theorem mergeFold_untouched (entries : Store) (st : Store × Nat) (a : String)
    (h : storeFind entries a = none) :
    storeFind (entries.foldl mergeStep st).1 a = storeFind st.1 a := by
  induction entries generalizing st with
  | nil => simp
  | cons e rest ih =>
      obtain ⟨k, rc⟩ := e
      by_cases hk : k = a
      · subst hk; simp [storeFind] at h
      · simp only [storeFind, hk, if_neg hk] at h
        rw [List.foldl_cons, ih _ h, find_mergeStep_ne _ _ _ hk]

theorem mergeFold_insert (entries : Store) (st : Store × Nat) (a : String)
    (rc : DeviceRecord) (hN : (entries.map Prod.fst).Nodup)
    (hall : storeFind st.1 a = none) (he : storeFind entries a = some rc) :
    storeFind (entries.foldl mergeStep st).1 a = some rc := by
  induction entries generalizing st with
  | nil => simp [storeFind] at he
  | cons e rest ih =>
      obtain ⟨k, r0⟩ := e
      rw [List.foldl_cons]
      by_cases hk : k = a
      · subst hk
        simp only [storeFind, if_pos rfl] at he
        obtain rfl : r0 = rc := by injection he
        have hrest : storeFind rest k = none := by
          rw [storeFind_none_iff]
          simp only [List.map_cons, List.nodup_cons] at hN
          exact hN.1
        rw [mergeFold_untouched rest _ _ hrest]
        show storeFind (mergeStep st (k, r0)).1 k = some r0
        unfold mergeStep
        simp [hall, storeFind_storeSet]
      · simp only [storeFind, if_neg hk] at he
        simp only [List.map_cons, List.nodup_cons] at hN
        refine ih _ hN.2 ?_ he
        rw [find_mergeStep_ne _ _ _ hk]
        exact hall

theorem mergeFold_collision (entries : Store) (st : Store × Nat) (a : String)
    (ex rc : DeviceRecord) (hN : (entries.map Prod.fst).Nodup)
    (hall : storeFind st.1 a = some ex) (he : storeFind entries a = some rc) :
    ∃ t, st.2 ≤ t ∧
      storeFind (entries.foldl mergeStep st).1 a =
        some (({ ex with
                   device_class := pyOrI ex.device_class rc.device_class
                 }).update_last_seen t) := by
  induction entries generalizing st with
  | nil => simp [storeFind] at he
  | cons e rest ih =>
      obtain ⟨k, r0⟩ := e
      rw [List.foldl_cons]
      by_cases hk : k = a
      · subst hk
        simp only [storeFind, if_pos rfl] at he
        obtain rfl : r0 = rc := by injection he
        have hrest : storeFind rest k = none := by
          rw [storeFind_none_iff]
          simp only [List.map_cons, List.nodup_cons] at hN
          exact hN.1
        refine ⟨st.2, le_refl _, ?_⟩
        rw [mergeFold_untouched rest _ _ hrest]
        show storeFind (mergeStep st (k, r0)).1 k = _
        unfold mergeStep
        simp [hall, storeFind_storeSet]
      · simp only [storeFind, if_neg hk] at he
        simp only [List.map_cons, List.nodup_cons] at hN
        have hall2 : storeFind (mergeStep st (k, r0)).1 a = some ex := by
          rw [find_mergeStep_ne _ _ _ hk]; exact hall
        obtain ⟨t, ht, hfin⟩ := ih _ hN.2 hall2 he
        exact ⟨t, le_trans (clock_mergeStep st (k, r0)) ht, hfin⟩

theorem storeFind_append (s1 s2 : Store) (a : String) :
    storeFind (s1 ++ s2) a =
      match storeFind s1 a with
      | some r => some r
      | none => storeFind s2 a := by
  induction s1 with
  | nil => simp [storeFind]
  | cons p rest ih =>
      obtain ⟨k, x⟩ := p
      by_cases hk : k = a <;> simp [storeFind, hk, ih]

theorem storeSet_fresh_append (st : Store) (a : String) (r : DeviceRecord)
    (h : storeFind st a = none) : storeSet st a r = st ++ [(a, r)] := by
  induction st with
  | nil => simp [storeSet]
  | cons p rest ih =>
      obtain ⟨k, x⟩ := p
      by_cases hk : k = a
      · subst hk; simp [storeFind] at h
      · simp only [storeFind, if_neg hk] at h
        simp [storeSet, hk, ih h]

/-- Merging a batch of records whose keys are fresh and mutually distinct
appends them in order, unchanged. -/
theorem mergeFold_disjoint (entries : Store) (st : Store × Nat)
    (hN : (entries.map Prod.fst).Nodup)
    (hdis : ∀ e ∈ entries, storeFind st.1 e.1 = none) :
    (entries.foldl mergeStep st).1 = st.1 ++ entries := by
  induction entries generalizing st with
  | nil => simp
  | cons e rest ih =>
      obtain ⟨k, rc⟩ := e
      simp only [List.map_cons, List.nodup_cons] at hN
      have hk0 : storeFind st.1 k = none := hdis (k, rc) (by simp)
      have hstep : mergeStep st (k, rc) = (st.1 ++ [(k, rc)], st.2) := by
        unfold mergeStep
        rw [hk0, storeSet_fresh_append st.1 k rc hk0]
      rw [List.foldl_cons, hstep, ih (st.1 ++ [(k, rc)], st.2) hN.2 ?_]
      · simp
      · intro e2 he2
        rw [storeFind_append]
        rw [hdis e2 (List.mem_cons_of_mem _ he2)]
        have hne : ¬ k = e2.1 := by
          intro hcontra
          exact hN.1 (hcontra ▸ (List.mem_map.mpr ⟨e2, he2, rfl⟩))
        simp [storeFind, hne]

/-- Merging a Classic store into an empty shared store yields the Classic
store itself. -/
theorem mergeFold_of_empty (entries : Store) (clk : Nat)
    (hN : (entries.map Prod.fst).Nodup) :
    (mergeStores [] entries clk).1 = entries := by
  unfold mergeStores
  rw [mergeFold_disjoint entries ([], clk) hN (by intro e he; simp [storeFind])]
  simp

/-! ### Service-UUID accumulation -/

theorem uuidIn_bleStep (st : Store × Nat) (ev : BLEEvent) (a u : String)
    (h : uuidIn st.1 a u) : uuidIn (bleStep st ev).1 a u := by
  obtain ⟨r, hf, hu⟩ := h
  unfold uuidIn
  rw [find_bleStep]
  by_cases hb : resolveAddr ev = a
  · subst hb
    refine ⟨bleStepRec st ev, by simp, ?_⟩
    unfold bleStepRec
    rw [hf]
    simpa using bleFieldUpdate_uuids_mem r ev u (Or.inl hu)
  · exact ⟨r, by simp [hb, hf], hu⟩

theorem uuidIn_bleStep_add (st : Store × Nat) (ev : BLEEvent) (u : String)
    (h : u ∈ ev.adv_service_uuids) :
    uuidIn (bleStep st ev).1 (resolveAddr ev) u := by
  unfold uuidIn
  rw [find_bleStep]
  refine ⟨bleStepRec st ev, by simp, ?_⟩
  unfold bleStepRec
  cases hf : storeFind st.1 (resolveAddr ev) <;>
    simpa using bleFieldUpdate_uuids_mem _ ev u (Or.inr h)

theorem uuidIn_bleFold (evs : List BLEEvent) (st : Store × Nat) (a u : String)
    (h : uuidIn st.1 a u) : uuidIn (evs.foldl bleStep st).1 a u := by
  induction evs generalizing st with
  | nil => simpa using h
  | cons ev rest ih =>
      rw [List.foldl_cons]
      exact ih _ (uuidIn_bleStep st ev a u h)

theorem uuidIn_fold_of_event (evs : List BLEEvent) (st : Store × Nat)
    (ev : BLEEvent) (hev : ev ∈ evs) (u : String)
    (hu : u ∈ ev.adv_service_uuids) :
    uuidIn (evs.foldl bleStep st).1 (resolveAddr ev) u := by
  induction evs generalizing st with
  | nil => simp at hev
  | cons e0 rest ih =>
      rw [List.foldl_cons]
      rcases List.mem_cons.mp hev with h | h
      · subst h
        exact uuidIn_bleFold rest _ _ _ (uuidIn_bleStep_add st ev u hu)
      · exact ih _ h

/-! ### Per-record frame facts -/

theorem frame_bleStep (st : Store × Nat) (ev : BLEEvent) (a : String)
    (r r2 : DeviceRecord) (hb : storeFind st.1 a = some r)
    (ha : storeFind (bleStep st ev).1 a = some r2) :
    r2.first_seen = r.first_seen ∧ ∀ u ∈ r.service_uuids, u ∈ r2.service_uuids := by
  rw [find_bleStep] at ha
  by_cases hres : resolveAddr ev = a
  · rw [if_pos hres] at ha
    obtain rfl : bleStepRec st ev = r2 := by injection ha
    unfold bleStepRec
    rw [hres, hb]
    constructor
    · simp
    · intro u hu
      simpa using bleFieldUpdate_uuids_mem r ev u (Or.inl hu)
  · rw [if_neg hres, hb] at ha
    obtain rfl : r = r2 := by injection ha
    exact ⟨rfl, fun u hu => hu⟩

theorem frame_classicStep (st : Store × Nat) (t : CTuple) (a : String)
    (r r2 : DeviceRecord) (hb : storeFind st.1 a = some r)
    (ha : storeFind (classicStep st t).1 a = some r2) :
    r2.first_seen = r.first_seen ∧ r2.service_uuids = r.service_uuids := by
  rw [find_classicStep] at ha
  by_cases hres : t.addr = a
  · rw [if_pos hres] at ha
    obtain rfl : classicStepRec st t = r2 := by injection ha
    unfold classicStepRec
    rw [hres, hb]
    exact ⟨rfl, rfl⟩
  · rw [if_neg hres, hb] at ha
    obtain rfl : r = r2 := by injection ha
    exact ⟨rfl, rfl⟩

theorem frame_mergeStep (st : Store × Nat) (e : String × DeviceRecord)
    (a : String) (r r2 : DeviceRecord) (hb : storeFind st.1 a = some r)
    (ha : storeFind (mergeStep st e).1 a = some r2) :
    r2.first_seen = r.first_seen ∧ r2.service_uuids = r.service_uuids := by
  by_cases hres : e.1 = a
  · subst hres
    unfold mergeStep at ha
    rw [hb] at ha
    simp only [storeFind_storeSet, if_pos rfl] at ha
    obtain rfl :
        ({ r with device_class := pyOrI r.device_class e.2.device_class
         }).update_last_seen st.2 = r2 := by injection ha
    exact ⟨rfl, rfl⟩
  · rw [find_mergeStep_ne st e a hres, hb] at ha
    obtain rfl : r = r2 := by injection ha
    exact ⟨rfl, rfl⟩

/-! ### Unfolding the coordinator -/

theorem mainRun_both (bleAvail clsAvail : Bool) (evs : List BLEEvent)
    (tuples : List CTuple) (clk : Nat) :
    mainRun Mode.both bleAvail evs clsAvail tuples clk =
      mergeStores (scanBLE bleAvail evs clk).1
        (scanClassic clsAvail tuples (scanBLE bleAvail evs clk).2).1
        (scanClassic clsAvail tuples (scanBLE bleAvail evs clk).2).2 := rfl

theorem mainRun_ble (bleAvail clsAvail : Bool) (evs : List BLEEvent)
    (tuples : List CTuple) (clk : Nat) :
    mainRun Mode.ble bleAvail evs clsAvail tuples clk =
      scanBLE bleAvail evs clk := rfl

theorem mainRun_classic (bleAvail clsAvail : Bool) (evs : List BLEEvent)
    (tuples : List CTuple) (clk : Nat) :
    (mainRun Mode.classic bleAvail evs clsAvail tuples clk).1 =
      (scanClassic clsAvail tuples clk).1 := by
  show (mergeStores [] (scanClassic clsAvail tuples clk).1
          (scanClassic clsAvail tuples clk).2).1 = _
  exact mergeFold_of_empty _ _ (Inv_scanClassic clsAvail tuples clk).1

/-! ### Scan-level corollaries -/

theorem scanBLE_sightings (evs : List BLEEvent) (clk : Nat) (a : String) :
    sightingsOf (scanBLE true evs clk).1 a = countBLE a evs := by
  have h := sightingsOf_bleFold evs ([], clk) a
  simpa [scanBLE, sightingsOf, storeFind] using h

theorem scanBLE_present (evs : List BLEEvent) (clk : Nat) (a : String) :
    (storeFind (scanBLE true evs clk).1 a).isSome = true ↔ 0 < countBLE a evs := by
  have h := present_bleFold evs ([], clk) a
  simpa [scanBLE, storeFind] using h

theorem scanClassic_sightings (ts : List CTuple) (clk : Nat) (a : String) :
    sightingsOf (scanClassic true ts clk).1 a = countCT a ts := by
  have h := sightingsOf_classicFold ts ([], clk) a
  simpa [scanClassic, sightingsOf, storeFind] using h

theorem scanClassic_present (ts : List CTuple) (clk : Nat) (a : String) :
    (storeFind (scanClassic true ts clk).1 a).isSome = true ↔ 0 < countCT a ts := by
  have h := present_classicFold ts ([], clk) a
  simpa [scanClassic, storeFind] using h

theorem clock_scanClassic (avail : Bool) (ts : List CTuple) (clk : Nat) :
    clk ≤ (scanClassic avail ts clk).2 := by
  unfold scanClassic
  split
  · exact clock_classicFold ts ([], clk)
  · exact le_refl clk

/-! ### Claim C1 -/

/-- C1 counterexample: on a cross-transport collision the additive formula
"BLE events + Classic tuples + merge increments" overcounts. With one BLE
event for `AA:BB`, one Classic tuple for `AA:BB` (hence one merge
collision), the final `sightings` is 2, not 1 + 1 + 1 = 3: the Classic-side
record, which absorbed the tuple, is discarded by the merge. -/
theorem sightings_additive_claim_false :
    0 < countBLE "AA:BB" [evAA] ∧ 0 < countCT "AA:BB" [ctAA] ∧
    sightingsOf (mainRun Mode.both true [evAA] true [ctAA] 0).1 "AA:BB" = 2 ∧
    sightingsOf (mainRun Mode.both true [evAA] true [ctAA] 0).1 "AA:BB" ≠
      countBLE "AA:BB" [evAA] + countCT "AA:BB" [ctAA] + 1 := by
  decide

/-- C1 (amended): in Both mode with both capabilities available, the final
`sightings` of an address is: its BLE event count plus exactly one merge
increment when the address was seen by both transports (the Classic tuples
count only into the discarded Classic-side record); its Classic tuple count
when seen only by Classic; its BLE event count when seen only by BLE.
Every processed event increments the counter of the record it lands on by
exactly 1, starting from 0 at construction. -/
theorem sightings_total_formula (evs : List BLEEvent) (tuples : List CTuple)
    (clk : Nat) (a : String) :
    sightingsOf (mainRun Mode.both true evs true tuples clk).1 a =
      if 0 < countBLE a evs ∧ 0 < countCT a tuples then countBLE a evs + 1
      else countBLE a evs + countCT a tuples := by
  rw [mainRun_both]
  have hNodup : ((scanClassic true tuples (scanBLE true evs clk).2).1.map
      Prod.fst).Nodup :=
    (Inv_scanClassic true tuples (scanBLE true evs clk).2).1
  cases hb : storeFind (scanBLE true evs clk).1 a with
  | some ex =>
      have hble : 0 < countBLE a evs :=
        (scanBLE_present evs clk a).mp (by simp [hb])
      have hbs : ex.sightings = countBLE a evs := by
        have := scanBLE_sightings evs clk a
        rw [sightingsOf, hb] at this
        exact this
      cases hc : storeFind (scanClassic true tuples (scanBLE true evs clk).2).1 a with
      | some rc =>
          have hct : 0 < countCT a tuples :=
            (scanClassic_present tuples (scanBLE true evs clk).2 a).mp (by simp [hc])
          obtain ⟨t, _, hfin⟩ :=
            mergeFold_collision _ (_, (scanClassic true tuples (scanBLE true evs clk).2).2)
              a ex rc hNodup hb hc
          rw [if_pos ⟨hble, hct⟩]
          unfold mergeStores at *
          rw [sightingsOf, hfin]
          simp [hbs]
      | none =>
          have hct : countCT a tuples = 0 := by
            by_contra hne
            have : 0 < countCT a tuples := Nat.pos_of_ne_zero hne
            have := (scanClassic_present tuples (scanBLE true evs clk).2 a).mpr this
            rw [hc] at this
            simp at this
          rw [if_neg (by simp [hct])]
          unfold mergeStores
          rw [sightingsOf, mergeFold_untouched _ _ _ hc, hb]
          show ex.sightings = countBLE a evs + countCT a tuples
          omega
  | none =>
      have hble : countBLE a evs = 0 := by
        by_contra hne
        have : 0 < countBLE a evs := Nat.pos_of_ne_zero hne
        have := (scanBLE_present evs clk a).mpr this
        rw [hb] at this
        simp at this
      cases hc : storeFind (scanClassic true tuples (scanBLE true evs clk).2).1 a with
      | some rc =>
          have hcs : rc.sightings = countCT a tuples := by
            have := scanClassic_sightings tuples (scanBLE true evs clk).2 a
            rw [sightingsOf, hc] at this
            exact this
          rw [if_neg (by simp [hble])]
          unfold mergeStores
          rw [sightingsOf,
              mergeFold_insert _ (_, (scanClassic true tuples (scanBLE true evs clk).2).2)
                a rc hNodup hb hc]
          show rc.sightings = countBLE a evs + countCT a tuples
          omega
      | none =>
          have hct : countCT a tuples = 0 := by
            by_contra hne
            have : 0 < countCT a tuples := Nat.pos_of_ne_zero hne
            have := (scanClassic_present tuples (scanBLE true evs clk).2 a).mpr this
            rw [hc] at this
            simp at this
          rw [if_neg (by simp [hble])]
          unfold mergeStores
          rw [sightingsOf, mergeFold_untouched _ _ _ hc, hb, hble, hct]

/-! ### Claim C2 -/

/-- C2: in Both mode, for an address present in both the BLE store and the
Classic result, the merge leaves every BLE field unchanged — transport stays
`"BLE"` — fills `device_class` only if currently absent (it always is, since
BLE never sets it), and registers exactly one additional sighting; addresses
unique to the Classic result are inserted unchanged. -/
theorem merge_preserves_ble_fields (evs : List BLEEvent) (tuples : List CTuple)
    (clk : Nat) (a : String) :
    (∀ rb rc : DeviceRecord,
      storeFind (scanBLE true evs clk).1 a = some rb →
      storeFind (scanClassic true tuples (scanBLE true evs clk).2).1 a = some rc →
      ∃ r, storeFind (mainRun Mode.both true evs true tuples clk).1 a = some r ∧
        r.transport = "BLE" ∧
        r.name = rb.name ∧ r.rssi = rb.rssi ∧ r.tx_power = rb.tx_power ∧
        r.appearance = rb.appearance ∧ r.connectable = rb.connectable ∧
        r.address_type = rb.address_type ∧
        r.service_uuids = rb.service_uuids ∧
        r.service_data = rb.service_data ∧
        r.manufacturer_data = rb.manufacturer_data ∧
        r.first_seen = rb.first_seen ∧
        r.device_class =
          (if rb.device_class = none then rc.device_class else rb.device_class) ∧
        r.device_class = rc.device_class ∧
        r.sightings = rb.sightings + 1 ∧
        rb.last_seen < r.last_seen) ∧
    (∀ rc : DeviceRecord,
      storeFind (scanBLE true evs clk).1 a = none →
      storeFind (scanClassic true tuples (scanBLE true evs clk).2).1 a = some rc →
      storeFind (mainRun Mode.both true evs true tuples clk).1 a = some rc) := by
  have hNodup : ((scanClassic true tuples (scanBLE true evs clk).2).1.map
      Prod.fst).Nodup :=
    (Inv_scanClassic true tuples (scanBLE true evs clk).2).1
  constructor
  · intro rb rc hb hc
    rw [mainRun_both]
    unfold mergeStores
    obtain ⟨t, ht, hfin⟩ :=
      mergeFold_collision _ (_, (scanClassic true tuples (scanBLE true evs clk).2).2)
        a rb rc hNodup hb hc
    have hB := InvB_scanBLE true evs clk _ (storeFind_mem _ _ _ hb)
    have hInvB := Inv_scanBLE true evs clk
    have hrbOK : recOK a rb (scanBLE true evs clk).2 :=
      hInvB.2 _ (storeFind_mem _ _ _ hb)
    have hlast : rb.last_seen < t :=
      lt_of_lt_of_le hrbOK.2.2.1
        (le_trans (clock_scanClassic true tuples (scanBLE true evs clk).2) ht)
    refine ⟨_, hfin, ?_⟩
    have hdc : rb.device_class = none := hB.2
    have htr : rb.transport = "BLE" := hB.1
    simp [htr, hdc, pyOrI, hlast]
  · intro rc hb hc
    rw [mainRun_both]
    unfold mergeStores
    exact mergeFold_insert _ (_, (scanClassic true tuples (scanBLE true evs clk).2).2)
      a rc hNodup hb hc

/-- C2 witness: scenario C at concrete inputs — one BLE event for `AA:BB`,
one Classic tuple for `AA:BB` with device class 42. -/
theorem merge_preserves_ble_fields_witness :
    ∃ r, storeFind (mainRun Mode.both true [evAA] true [ctAA42] 0).1 "AA:BB" = some r ∧
      r.transport = "BLE" ∧
      r.name = none ∧ r.rssi = none ∧ r.tx_power = none ∧
      r.appearance = none ∧ r.connectable = none ∧
      r.address_type = none ∧
      r.service_uuids = [] ∧ r.service_data = [] ∧ r.manufacturer_data = [] ∧
      r.first_seen = 0 ∧
      r.device_class = (if (none : Option Int) = none then some 42 else none) ∧
      r.device_class = some 42 ∧
      r.sightings = 1 + 1 ∧
      (1 : Nat) < r.last_seen := by
  have h := (merge_preserves_ble_fields [evAA] [ctAA42] 0 "AA:BB").1
    (DeviceRecord.new "AA:BB" "BLE" 0 |>.update_last_seen 1)
    ({ DeviceRecord.new "AA:BB" "Classic" 2 with
         device_class := some 42 }.update_last_seen 3)
    (by decide) (by decide)
  simpa [DeviceRecord.new, DeviceRecord.update_last_seen] using h

/-! ### Claim C3 -/

/-- C3 counterexample: line 78 does not fall back to the stored value. After
an event that set rssi to -50, a second event for the same address supplying
neither an advertisement-level nor a device-level rssi erases the stored
value to `None`, where the claim requires it to stay -50. -/
theorem rssi_keep_claim_false :
    (storeFind (scanBLE true [evAAr50] 0).1 "AA:BB").map DeviceRecord.rssi =
      some (some (-50)) ∧
    evAA.adv_rssi = none ∧ evAA.device_rssi = none ∧
    (storeFind (scanBLE true [evAAr50, evAA] 0).1 "AA:BB").map DeviceRecord.rssi =
      some none := by
  decide

/-- C3 (amended): each BLE event sets the record's rssi to the
advertisement-level value when present, and otherwise to the device-level
value even when that is absent — an event supplying neither rssi overwrites
a previously stored rssi with `None`. -/
theorem rssi_update_rule (st : Store × Nat) (ev : BLEEvent) :
    (storeFind (bleStep st ev).1 (resolveAddr ev)).map DeviceRecord.rssi =
      some (match ev.adv_rssi with
            | some v => some v
            | none => ev.device_rssi) := by
  rw [find_bleStep, if_pos rfl]
  unfold bleStepRec
  cases hf : storeFind st.1 (resolveAddr ev) <;>
    simp [bleFieldUpdate]

/-! ### Claim C4 -/

/-- C4 counterexample: `rec.name = name or rec.name` (line 155) lets a later
tuple's name overwrite an already-present name. Two tuples of one inquiry for
the same address, named `First` then `Second`, leave the record named
`Second`, where the claim requires `First` to be kept. -/
theorem classic_name_keep_claim_false :
    (storeFind (scanClassic true [ctAAFirst] 0).1 "AA:BB").map DeviceRecord.name =
      some (some "First") ∧
    (storeFind (scanClassic true [ctAAFirst, ctAASecond] 0).1 "AA:BB").map
      DeviceRecord.name = some (some "Second") ∧
    some "Second" ≠ some "First" := by
  decide

/-- C4 (amended): each Classic tuple sets the record's name by Python
truthiness `name or rec.name`: a tuple whose name is present (non-empty)
always overwrites, and the existing name is kept only when the tuple's name
is absent or empty. -/
theorem classic_name_update_rule (st : Store × Nat) (t : CTuple) :
    (storeFind (classicStep st t).1 t.addr).map DeviceRecord.name =
      some (pyOrS t.name
        (match storeFind st.1 t.addr with
         | some r => r.name
         | none => none)) := by
  rw [find_classicStep, if_pos rfl]
  unfold classicStepRec
  cases hf : storeFind st.1 t.addr <;> simp [DeviceRecord.new]

/-! ### Claim C5 -/

/-- C5: after every upsert and merge operation the store invariants hold:
addresses are unique keys (and each record knows its key), `first_seen` ≤
`last_seen`, `sightings` ≥ 1 for every stored record, and across any step a
surviving record keeps its `first_seen` and never loses a service UUID. -/
theorem store_invariants (st : Store × Nat) (h : Inv st.1 st.2) :
    (∀ clk, Inv [] clk) ∧
    (∀ ev : BLEEvent,
      Inv (bleStep st ev).1 (bleStep st ev).2 ∧
      ∀ a r r2, storeFind st.1 a = some r →
        storeFind (bleStep st ev).1 a = some r2 →
        r2.first_seen = r.first_seen ∧ ∀ u ∈ r.service_uuids, u ∈ r2.service_uuids) ∧
    (∀ t : CTuple,
      Inv (classicStep st t).1 (classicStep st t).2 ∧
      ∀ a r r2, storeFind st.1 a = some r →
        storeFind (classicStep st t).1 a = some r2 →
        r2.first_seen = r.first_seen ∧ r2.service_uuids = r.service_uuids) ∧
    (∀ e : String × DeviceRecord, entryOK e st.2 →
      Inv (mergeStep st e).1 (mergeStep st e).2 ∧
      ∀ a r r2, storeFind st.1 a = some r →
        storeFind (mergeStep st e).1 a = some r2 →
        r2.first_seen = r.first_seen ∧ r2.service_uuids = r.service_uuids) := by
  refine ⟨Inv_empty, ?_, ?_, ?_⟩
  · intro ev
    exact ⟨Inv_bleStep st ev h, fun a r r2 hr hr2 => frame_bleStep st ev a r r2 hr hr2⟩
  · intro t
    exact ⟨Inv_classicStep st t h, fun a r r2 hr hr2 => frame_classicStep st t a r r2 hr hr2⟩
  · intro e he
    exact ⟨Inv_mergeStep st e h he, fun a r r2 hr hr2 => frame_mergeStep st e a r r2 hr hr2⟩

/-- C5 witness: the invariants hold after one BLE upsert into the empty
store. -/
theorem store_invariants_witness :
    Inv (bleStep (([] : Store), 0) evAA).1 (bleStep (([] : Store), 0) evAA).2 :=
  ((store_invariants (([] : Store), 0) (by decide)).2.1 evAA).1

/-! ### Claim C8 -/

/-- C8: an unavailable scanning capability makes the affected adapter return
an empty result instead of raising, and the session proceeds with the other
mode: with BLE unavailable, the Both-mode store is exactly the Classic
result; with Classic unavailable, it is exactly the BLE result. -/
theorem capability_unavailable_empty (evs : List BLEEvent) (tuples : List CTuple)
    (clk : Nat) :
    scanBLE false evs clk = ([], clk) ∧
    scanClassic false tuples clk = ([], clk) ∧
    (mainRun Mode.both false evs true tuples clk).1 = (scanClassic true tuples clk).1 ∧
    (mainRun Mode.both true evs false tuples clk).1 = (scanBLE true evs clk).1 := by
  refine ⟨rfl, rfl, ?_, rfl⟩
  show (mergeStores [] (scanClassic true tuples clk).1
          (scanClassic true tuples clk).2).1 = _
  exact mergeFold_of_empty _ _ (Inv_scanClassic true tuples clk).1

/-! ### Claim C9 -/

/-- C9: when neither output path is supplied, exactly one default file named
`bt_scan_<timestamp>.json` is written, and for a session that discovered no
devices (no BLE events in BLE mode) its content is the empty JSON array. -/
theorem default_output_file (ts : String) (st : Store) (clk : Nat) :
    outputsOf none none ts st =
      [("bt_scan_" ++ ts ++ ".json", OutContent.jsonFile (rowsOf st))] ∧
    outputsOf none none ts (mainRun Mode.ble true [] true [] clk).1 =
      [("bt_scan_" ++ ts ++ ".json", OutContent.jsonFile [])] := by
  exact ⟨rfl, rfl⟩

/-! ### Claim C10 -/

/-- C10: an advertisement event whose device exposes neither an address nor
a `mac_address` is upserted under the sentinel key `"UNKNOWN"`; all such
events of a session share that single record — its sightings counter counts
every event resolving to `"UNKNOWN"` and its UUID set accumulates all their
service UUIDs, mixing distinct physical devices. -/
theorem unknown_sentinel_shared_record (evs : List BLEEvent) (clk : Nat) :
    (∀ ev : BLEEvent, ev.device_address = none → ev.device_mac_address = none →
        resolveAddr ev = "UNKNOWN") ∧
    sightingsOf (scanBLE true evs clk).1 "UNKNOWN" = countBLE "UNKNOWN" evs ∧
    (∀ ev ∈ evs, resolveAddr ev = "UNKNOWN" →
        ∀ u ∈ ev.adv_service_uuids, uuidIn (scanBLE true evs clk).1 "UNKNOWN" u) := by
  refine ⟨?_, scanBLE_sightings evs clk "UNKNOWN", ?_⟩
  · intro ev h1 h2
    simp [resolveAddr, pyOrS, h1, h2]
  · intro ev hev hres u hu
    have h := uuidIn_fold_of_event evs ([], clk) ev hev u hu
    rw [hres] at h
    simpa [scanBLE] using h

/-- C10 witness: two identity-less events share the `"UNKNOWN"` record,
which accumulates both UUID sets and counts both sightings. -/
theorem unknown_sentinel_shared_record_witness :
    resolveAddr evU1 = "UNKNOWN" ∧
    sightingsOf (scanBLE true [evU1, evU2] 0).1 "UNKNOWN" = countBLE "UNKNOWN" [evU1, evU2] ∧
    uuidIn (scanBLE true [evU1, evU2] 0).1 "UNKNOWN" "u2" :=
  ⟨(unknown_sentinel_shared_record [evU1, evU2] 0).1 evU1 rfl rfl,
   (unknown_sentinel_shared_record [evU1, evU2] 0).2.1,
   (unknown_sentinel_shared_record [evU1, evU2] 0).2.2 evU2 (by decide) (by decide)
     "u2" (by decide)⟩

/-! ### The Python string order -/

theorem charListLe_total (as bs : List Char) :
    charListLe as bs = true ∨ charListLe bs as = true := by
  induction as generalizing bs with
  | nil => left; rfl
  | cons a as2 ih =>
      cases bs with
      | nil => right; rfl
      | cons b bs2 =>
          by_cases hab : a < b
          · left; simp [charListLe, hab]
          · by_cases hba : b < a
            · right; simp [charListLe, hba]
            · rcases ih bs2 with h | h
              · left; simp [charListLe, hab, hba, h]
              · right; simp [charListLe, hab, hba, h]

theorem charListLe_trans : ∀ as bs cs, charListLe as bs = true →
    charListLe bs cs = true → charListLe as cs = true := by
  intro as
  induction as with
  | nil => intro bs cs h1 h2; rfl
  | cons a as2 ih =>
      intro bs cs h1 h2
      cases bs with
      | nil => simp [charListLe] at h1
      | cons b bs2 =>
          cases cs with
          | nil => simp [charListLe] at h2
          | cons c cs2 =>
              by_cases hab : a < b
              · by_cases hbc : b < c
                · simp [charListLe, Char.lt_trans hab hbc]
                · by_cases hcb : c < b
                  · simp [charListLe, hbc, hcb] at h2
                  · have hbceq : b = c :=
                      Char.le_antisymm (Char.not_lt.mp hcb) (Char.not_lt.mp hbc)
                    subst hbceq
                    simp [charListLe, hab]
              · by_cases hba : b < a
                · simp [charListLe, hab, hba] at h1
                · have habeq : a = b :=
                    Char.le_antisymm (Char.not_lt.mp hba) (Char.not_lt.mp hab)
                  subst habeq
                  simp only [charListLe, if_neg hab, if_neg hba] at h1
                  by_cases hac : a < c
                  · simp [charListLe, hac]
                  · by_cases hca : c < a
                    · simp [charListLe, hac, hca] at h2
                    · simp only [charListLe, if_neg hac, if_neg hca] at h2 ⊢
                      exact ih bs2 cs2 h1 h2

theorem charListLe_not_lex (as bs : List Char) (h : charListLe as bs = true) :
    ¬ List.Lex (fun a b : Char => a < b) bs as := by
  induction as generalizing bs with
  | nil => cases bs <;> exact List.Lex.not_nil_right _ _
  | cons a as2 ih =>
      cases bs with
      | nil => simp [charListLe] at h
      | cons b bs2 =>
          intro hlex
          cases hlex with
          | rel hr =>
              simp [charListLe, Char.lt_asymm hr, hr] at h
          | cons htail =>
              simp only [charListLe, if_neg (Char.lt_irrefl a)] at h
              exact ih bs2 h htail

/-- The executable Python string order implies the standard `String` order:
both are code-point lexicographic. -/
theorem pyStrLe_le {a b : String} (h : pyStrLe a b) : a ≤ b := by
  rw [String.le_iff_toList_le]
  exact not_lt.mp (fun hlt => charListLe_not_lex a.data b.data h hlt)

/-! ### Claim C6 -/

/-- C6: serialization maps each empty composite field to the explicit
absence marker `none`, never to an empty container; a non-empty UUID set is
rendered as an ascending-sorted, duplicate-free list, independent of the
order in which the UUIDs arrived. -/
theorem to_row_composites (r : DeviceRecord) (hnd : r.service_uuids.Nodup) :
    (r.to_row.service_uuids = none ↔ r.service_uuids = []) ∧
    (r.to_row.service_data = none ↔ r.service_data = []) ∧
    (r.to_row.manufacturer_data = none ↔ r.manufacturer_data = []) ∧
    (∀ l, r.to_row.service_uuids = some l →
       l ≠ [] ∧ l.Sorted (fun a b : String => a ≤ b) ∧ l.Nodup) ∧
    (∀ kvs, r.to_row.service_data = some kvs → kvs ≠ []) ∧
    (∀ kvs, r.to_row.manufacturer_data = some kvs → kvs ≠ []) ∧
    (∀ r2 : DeviceRecord, r2.service_uuids.Perm r.service_uuids →
       r2.to_row.service_uuids = r.to_row.service_uuids) := by
  refine ⟨?_, ?_, ?_, ?_, ?_, ?_, ?_⟩
  · by_cases h : r.service_uuids = [] <;> simp [DeviceRecord.to_row, h]
  · by_cases h : r.service_data = [] <;> simp [DeviceRecord.to_row, h]
  · by_cases h : r.manufacturer_data = [] <;> simp [DeviceRecord.to_row, h]
  · intro l hl
    by_cases h : r.service_uuids = []
    · simp [DeviceRecord.to_row, h] at hl
    · simp only [DeviceRecord.to_row, if_neg h] at hl
      obtain rfl : sortedStrings r.service_uuids = l := by injection hl
      haveI : IsTotal String pyStrLe := ⟨fun a b => charListLe_total a.data b.data⟩
      haveI : IsTrans String pyStrLe :=
        ⟨fun a b c h1 h2 => charListLe_trans a.data b.data c.data h1 h2⟩
      refine ⟨?_, (List.sorted_insertionSort pyStrLe _).imp (fun hab => pyStrLe_le hab),
              (List.perm_insertionSort pyStrLe _).nodup_iff.mpr hnd⟩
      intro hnil
      apply h
      have hlen := List.length_insertionSort pyStrLe r.service_uuids
      unfold sortedStrings at hnil
      rw [hnil] at hlen
      exact List.length_eq_zero.mp hlen.symm
  · intro kvs hk
    by_cases h : r.service_data = []
    · simp [DeviceRecord.to_row, h] at hk
    · simp only [DeviceRecord.to_row, if_neg h] at hk
      obtain rfl : r.service_data = kvs := by injection hk
      exact h
  · intro kvs hk
    by_cases h : r.manufacturer_data = []
    · simp [DeviceRecord.to_row, h] at hk
    · simp only [DeviceRecord.to_row, if_neg h] at hk
      obtain rfl : r.manufacturer_data = kvs := by injection hk
      exact h
  · intro r2 hperm
    by_cases h : r.service_uuids = []
    · have h2 : r2.service_uuids = [] := (h ▸ hperm).eq_nil
      simp [DeviceRecord.to_row, h, h2]
    · have h2 : r2.service_uuids ≠ [] := by
        intro hn
        exact h ((hn ▸ hperm).symm.eq_nil)
      simp only [DeviceRecord.to_row, if_neg h, if_neg h2]
      refine congrArg some ?_
      haveI : IsTotal String pyStrLe := ⟨fun a b => charListLe_total a.data b.data⟩
      haveI : IsTrans String pyStrLe :=
        ⟨fun a b c h1 h2 => charListLe_trans a.data b.data c.data h1 h2⟩
      exact List.eq_of_perm_of_sorted
        (((List.perm_insertionSort pyStrLe _).trans hperm).trans
          (List.perm_insertionSort pyStrLe _).symm)
        ((List.sorted_insertionSort pyStrLe _).imp (fun hab => pyStrLe_le hab))
        ((List.sorted_insertionSort pyStrLe _).imp (fun hab => pyStrLe_le hab))

/-- C6 witness: a record whose UUIDs arrived as `["b", "a"]` serializes them
as the sorted list `["a", "b"]`, and the absence marker appears exactly when
the set is empty. -/
theorem to_row_composites_witness :
    recW.to_row.service_uuids = some ["a", "b"] ∧
    (recW.to_row.service_uuids = none ↔ recW.service_uuids = []) :=
  ⟨by decide, (to_row_composites recW (by decide)).1⟩

/-! ### JSON roundtrip: arrays -/

theorem arrLoop_expectEl_cons (acc : List String) (c : Char) (cs : List Char) :
    arrLoop ArrSt.expectEl acc (c :: cs) =
      if c = '"' then arrLoop (ArrSt.inStr []) acc cs else none := by
  rw [arrLoop.eq_def]

theorem arrLoop_inStr_cons (cur : List Char) (acc : List String) (c : Char)
    (cs : List Char) :
    arrLoop (ArrSt.inStr cur) acc (c :: cs) =
      if c = '\\' then
        match cs with
        | [] => none
        | c2 :: cs2 => arrLoop (ArrSt.inStr (cur ++ [c2])) acc cs2
      else if c = '"' then arrLoop ArrSt.afterEl (acc ++ [String.mk cur]) cs
      else arrLoop (ArrSt.inStr (cur ++ [c])) acc cs := by
  rw [arrLoop.eq_def]

theorem arrLoop_afterEl_cons (acc : List String) (c : Char) (cs : List Char) :
    arrLoop ArrSt.afterEl acc (c :: cs) =
      if c = ']' then some (acc, cs)
      else if c = ',' then
        match cs with
        | ' ' :: cs2 => arrLoop ArrSt.expectEl acc cs2
        | _ => none
      else none := by
  rw [arrLoop.eq_def]

theorem arrLoop_inStr (s : List Char) : ∀ (cs : List Char) (acc : List String)
    (cur : List Char),
    arrLoop (ArrSt.inStr cur) acc (escapeChars s ++ '"' :: cs) =
    arrLoop ArrSt.afterEl (acc ++ [String.mk (cur ++ s)]) cs := by
  induction s with
  | nil =>
      intro cs acc cur
      show arrLoop (ArrSt.inStr cur) acc ('"' :: cs) = _
      rw [arrLoop_inStr_cons, if_neg (by decide : ¬ ('"' : Char) = '\\'), if_pos rfl]
      simp
  | cons c s2 ih =>
      intro cs acc cur
      by_cases hc : c = '"' ∨ c = '\\'
      · show arrLoop (ArrSt.inStr cur) acc
          ((escChar c ++ escapeChars s2) ++ '"' :: cs) = _
        rw [show (escChar c ++ escapeChars s2) ++ '"' :: cs =
             '\\' :: c :: (escapeChars s2 ++ '"' :: cs) by
           simp [escChar, if_pos hc]]
        rw [arrLoop_inStr_cons, if_pos rfl]
        show arrLoop (ArrSt.inStr (cur ++ [c])) acc (escapeChars s2 ++ '"' :: cs) = _
        rw [ih cs acc (cur ++ [c])]
        simp
      · push_neg at hc
        show arrLoop (ArrSt.inStr cur) acc
          ((escChar c ++ escapeChars s2) ++ '"' :: cs) = _
        rw [show (escChar c ++ escapeChars s2) ++ '"' :: cs =
             c :: (escapeChars s2 ++ '"' :: cs) by
           simp [escChar, if_neg (by tauto : ¬ (c = '"' ∨ c = '\\'))]]
        rw [arrLoop_inStr_cons, if_neg hc.2, if_neg hc.1]
        rw [ih cs acc (cur ++ [c])]
        simp

theorem data_dumpStr (s : String) :
    (dumpStr s).data = '"' :: (escapeChars s.data ++ ['"']) := by
  simp [dumpStr]

theorem arrLoop_elems (l : List String) (h : l ≠ []) :
    ∀ (acc : List String) (cs : List Char),
    arrLoop ArrSt.expectEl acc ((dumpArrElems l).data ++ ']' :: cs) =
      some (acc ++ l, cs) := by
  induction l with
  | nil => exact absurd rfl h
  | cons s rest ih =>
      intro acc cs
      cases rest with
      | nil =>
          show arrLoop ArrSt.expectEl acc ((dumpStr s).data ++ ']' :: cs) = _
          rw [data_dumpStr]
          rw [show ('"' :: (escapeChars s.data ++ ['"'])) ++ ']' :: cs =
               '"' :: (escapeChars s.data ++ '"' :: (']' :: cs)) by simp]
          rw [arrLoop_expectEl_cons, if_pos rfl]
          rw [arrLoop_inStr s.data (']' :: cs) acc []]
          rw [arrLoop_afterEl_cons, if_pos rfl]
          rfl
      | cons s2 rest2 =>
          show arrLoop ArrSt.expectEl acc
            ((dumpStr s ++ ", " ++ dumpArrElems (s2 :: rest2)).data ++ ']' :: cs) = _
          rw [show (dumpStr s ++ ", " ++ dumpArrElems (s2 :: rest2)).data ++ ']' :: cs
               = '"' :: (escapeChars s.data ++
                   '"' :: (',' :: ' ' :: ((dumpArrElems (s2 :: rest2)).data ++ ']' :: cs)))
             by simp [data_dumpStr]]
          rw [arrLoop_expectEl_cons, if_pos rfl]
          rw [arrLoop_inStr s.data _ acc []]
          rw [arrLoop_afterEl_cons, if_neg (by decide : ¬ (',' : Char) = ']'),
              if_pos rfl]
          show arrLoop ArrSt.expectEl (acc ++ [String.mk ([] ++ s.data)])
            ((dumpArrElems (s2 :: rest2)).data ++ ']' :: cs) = _
          rw [ih (by simp) (acc ++ [String.mk ([] ++ s.data)]) cs]
          simp

theorem dumpArrElems_head (l : List String) (h : l ≠ []) :
    ∃ t, (dumpArrElems l).data = '"' :: t := by
  cases l with
  | nil => exact absurd rfl h
  | cons s rest =>
      cases rest with
      | nil => exact ⟨_, data_dumpStr s⟩
      | cons s2 rest2 =>
          refine ⟨escapeChars s.data ++ ['"'] ++ (", " ++ dumpArrElems (s2 :: rest2)).data, ?_⟩
          show (dumpStr s ++ ", " ++ dumpArrElems (s2 :: rest2)).data = _
          simp [data_dumpStr]

theorem parseCVal_bracket (s : String) (cs : List Char)
    (hs : s.data = '[' :: cs) :
    parseCVal s =
      (if cs = [']'] then some (CVal.arr [])
       else
         match arrLoop ArrSt.expectEl [] cs with
         | some (l, []) => some (CVal.arr l)
         | _ => none) := by
  unfold parseCVal
  rw [hs]
  rfl

theorem parse_dumpArr (l : List String) :
    parseCVal (dumpArr l) = some (CVal.arr l) := by
  cases hl : l with
  | nil => decide
  | cons s rest =>
      have hne : (s :: rest : List String) ≠ [] := by simp
      obtain ⟨t, ht⟩ := dumpArrElems_head (s :: rest) hne
      have hdata : (dumpArr (s :: rest)).data =
          '[' :: ((dumpArrElems (s :: rest)).data ++ [']']) := by
        simp [dumpArr]
      rw [parseCVal_bracket _ _ hdata]
      rw [if_neg (by rw [ht]; simp)]
      rw [show (dumpArrElems (s :: rest)).data ++ [']'] =
           (dumpArrElems (s :: rest)).data ++ ']' :: [] from rfl]
      rw [arrLoop_elems (s :: rest) hne [] []]
      rfl

/-! ### JSON roundtrip: objects -/

theorem objLoop_expectKey_cons (acc : List (String × String)) (c : Char)
    (cs : List Char) :
    objLoop ObjSt.expectKey acc (c :: cs) =
      if c = '"' then objLoop (ObjSt.inKey []) acc cs else none := by
  rw [objLoop.eq_def]

theorem objLoop_inKey_cons (cur : List Char) (acc : List (String × String))
    (c : Char) (cs : List Char) :
    objLoop (ObjSt.inKey cur) acc (c :: cs) =
      if c = '\\' then
        match cs with
        | [] => none
        | c2 :: cs2 => objLoop (ObjSt.inKey (cur ++ [c2])) acc cs2
      else if c = '"' then objLoop (ObjSt.afterKey cur) acc cs
      else objLoop (ObjSt.inKey (cur ++ [c])) acc cs := by
  rw [objLoop.eq_def]

theorem objLoop_afterKey_cons (k : List Char) (acc : List (String × String))
    (c : Char) (cs : List Char) :
    objLoop (ObjSt.afterKey k) acc (c :: cs) =
      if c = ':' then
        match cs with
        | ' ' :: '"' :: cs2 => objLoop (ObjSt.inVal k []) acc cs2
        | _ => none
      else none := by
  rw [objLoop.eq_def]

theorem objLoop_inVal_cons (k cur : List Char) (acc : List (String × String))
    (c : Char) (cs : List Char) :
    objLoop (ObjSt.inVal k cur) acc (c :: cs) =
      if c = '\\' then
        match cs with
        | [] => none
        | c2 :: cs2 => objLoop (ObjSt.inVal k (cur ++ [c2])) acc cs2
      else if c = '"' then
        objLoop ObjSt.afterPair (acc ++ [(String.mk k, String.mk cur)]) cs
      else objLoop (ObjSt.inVal k (cur ++ [c])) acc cs := by
  rw [objLoop.eq_def]

theorem objLoop_afterPair_cons (acc : List (String × String)) (c : Char)
    (cs : List Char) :
    objLoop ObjSt.afterPair acc (c :: cs) =
      if c = '}' then some (acc, cs)
      else if c = ',' then
        match cs with
        | ' ' :: cs2 => objLoop ObjSt.expectKey acc cs2
        | _ => none
      else none := by
  rw [objLoop.eq_def]

theorem objLoop_inKey (s : List Char) : ∀ (cs : List Char)
    (acc : List (String × String)) (cur : List Char),
    objLoop (ObjSt.inKey cur) acc (escapeChars s ++ '"' :: cs) =
    objLoop (ObjSt.afterKey (cur ++ s)) acc cs := by
  induction s with
  | nil =>
      intro cs acc cur
      show objLoop (ObjSt.inKey cur) acc ('"' :: cs) = _
      rw [objLoop_inKey_cons, if_neg (by decide : ¬ ('"' : Char) = '\\'), if_pos rfl]
      simp
  | cons c s2 ih =>
      intro cs acc cur
      by_cases hc : c = '"' ∨ c = '\\'
      · show objLoop (ObjSt.inKey cur) acc
          ((escChar c ++ escapeChars s2) ++ '"' :: cs) = _
        rw [show (escChar c ++ escapeChars s2) ++ '"' :: cs =
             '\\' :: c :: (escapeChars s2 ++ '"' :: cs) by
           simp [escChar, if_pos hc]]
        rw [objLoop_inKey_cons, if_pos rfl]
        show objLoop (ObjSt.inKey (cur ++ [c])) acc (escapeChars s2 ++ '"' :: cs) = _
        rw [ih cs acc (cur ++ [c])]
        simp
      · push_neg at hc
        show objLoop (ObjSt.inKey cur) acc
          ((escChar c ++ escapeChars s2) ++ '"' :: cs) = _
        rw [show (escChar c ++ escapeChars s2) ++ '"' :: cs =
             c :: (escapeChars s2 ++ '"' :: cs) by
           simp [escChar, if_neg (by tauto : ¬ (c = '"' ∨ c = '\\'))]]
        rw [objLoop_inKey_cons, if_neg hc.2, if_neg hc.1]
        rw [ih cs acc (cur ++ [c])]
        simp

theorem objLoop_inVal (s : List Char) : ∀ (cs : List Char)
    (acc : List (String × String)) (k cur : List Char),
    objLoop (ObjSt.inVal k cur) acc (escapeChars s ++ '"' :: cs) =
    objLoop ObjSt.afterPair (acc ++ [(String.mk k, String.mk (cur ++ s))]) cs := by
  induction s with
  | nil =>
      intro cs acc k cur
      show objLoop (ObjSt.inVal k cur) acc ('"' :: cs) = _
      rw [objLoop_inVal_cons, if_neg (by decide : ¬ ('"' : Char) = '\\'), if_pos rfl]
      simp
  | cons c s2 ih =>
      intro cs acc k cur
      by_cases hc : c = '"' ∨ c = '\\'
      · show objLoop (ObjSt.inVal k cur) acc
          ((escChar c ++ escapeChars s2) ++ '"' :: cs) = _
        rw [show (escChar c ++ escapeChars s2) ++ '"' :: cs =
             '\\' :: c :: (escapeChars s2 ++ '"' :: cs) by
           simp [escChar, if_pos hc]]
        rw [objLoop_inVal_cons, if_pos rfl]
        show objLoop (ObjSt.inVal k (cur ++ [c])) acc
          (escapeChars s2 ++ '"' :: cs) = _
        rw [ih cs acc k (cur ++ [c])]
        simp
      · push_neg at hc
        show objLoop (ObjSt.inVal k cur) acc
          ((escChar c ++ escapeChars s2) ++ '"' :: cs) = _
        rw [show (escChar c ++ escapeChars s2) ++ '"' :: cs =
             c :: (escapeChars s2 ++ '"' :: cs) by
           simp [escChar, if_neg (by tauto : ¬ (c = '"' ∨ c = '\\'))]]
        rw [objLoop_inVal_cons, if_neg hc.2, if_neg hc.1]
        rw [ih cs acc k (cur ++ [c])]
        simp

theorem objLoop_pairs (kvs : List (String × String)) (h : kvs ≠ []) :
    ∀ (acc : List (String × String)) (cs : List Char),
    objLoop ObjSt.expectKey acc ((dumpObjElems kvs).data ++ '}' :: cs) =
      some (acc ++ kvs, cs) := by
  induction kvs with
  | nil => exact absurd rfl h
  | cons p rest ih =>
      obtain ⟨k, v⟩ := p
      intro acc cs
      cases rest with
      | nil =>
          show objLoop ObjSt.expectKey acc
            ((dumpStr k ++ ": " ++ dumpStr v).data ++ '}' :: cs) = _
          rw [show (dumpStr k ++ ": " ++ dumpStr v).data ++ '}' :: cs =
               '"' :: (escapeChars k.data ++
                 '"' :: (':' :: ' ' :: '"' :: (escapeChars v.data ++ '"' :: ('}' :: cs))))
             by simp [data_dumpStr]]
          rw [objLoop_expectKey_cons, if_pos rfl]
          rw [objLoop_inKey k.data _ acc []]
          rw [objLoop_afterKey_cons, if_pos rfl]
          show objLoop (ObjSt.inVal ([] ++ k.data) []) acc
            (escapeChars v.data ++ '"' :: ('}' :: cs)) = _
          rw [objLoop_inVal v.data _ acc ([] ++ k.data) []]
          rw [objLoop_afterPair_cons, if_pos rfl]
          rfl
      | cons p2 rest2 =>
          show objLoop ObjSt.expectKey acc
            ((dumpStr k ++ ": " ++ dumpStr v ++ ", " ++
              dumpObjElems (p2 :: rest2)).data ++ '}' :: cs) = _
          rw [show (dumpStr k ++ ": " ++ dumpStr v ++ ", " ++
                dumpObjElems (p2 :: rest2)).data ++ '}' :: cs =
               '"' :: (escapeChars k.data ++
                 '"' :: (':' :: ' ' :: '"' :: (escapeChars v.data ++
                   '"' :: (',' :: ' ' ::
                     ((dumpObjElems (p2 :: rest2)).data ++ '}' :: cs)))))
             by simp [data_dumpStr]]
          rw [objLoop_expectKey_cons, if_pos rfl]
          rw [objLoop_inKey k.data _ acc []]
          rw [objLoop_afterKey_cons, if_pos rfl]
          show objLoop (ObjSt.inVal ([] ++ k.data) []) acc
            (escapeChars v.data ++
              '"' :: (',' :: ' ' :: ((dumpObjElems (p2 :: rest2)).data ++ '}' :: cs))) = _
          rw [objLoop_inVal v.data _ acc ([] ++ k.data) []]
          rw [objLoop_afterPair_cons, if_neg (by decide : ¬ (',' : Char) = '}'),
              if_pos rfl]
          show objLoop ObjSt.expectKey
            (acc ++ [(String.mk ([] ++ k.data), String.mk ([] ++ v.data))])
            ((dumpObjElems (p2 :: rest2)).data ++ '}' :: cs) = _
          rw [ih (by simp) _ cs]
          simp

theorem dumpObjElems_head (kvs : List (String × String)) (h : kvs ≠ []) :
    ∃ t, (dumpObjElems kvs).data = '"' :: t := by
  cases kvs with
  | nil => exact absurd rfl h
  | cons p rest =>
      obtain ⟨k, v⟩ := p
      cases rest with
      | nil =>
          refine ⟨escapeChars k.data ++ ['"'] ++ (": " ++ dumpStr v).data, ?_⟩
          show (dumpStr k ++ ": " ++ dumpStr v).data = _
          simp [data_dumpStr]
      | cons p2 rest2 =>
          refine ⟨escapeChars k.data ++ ['"'] ++
            (": " ++ dumpStr v ++ ", " ++ dumpObjElems (p2 :: rest2)).data, ?_⟩
          show (dumpStr k ++ ": " ++ dumpStr v ++ ", " ++
            dumpObjElems (p2 :: rest2)).data = _
          simp [data_dumpStr]

theorem parseCVal_brace (s : String) (cs : List Char)
    (hs : s.data = '{' :: cs) :
    parseCVal s =
      (if cs = ['}'] then some (CVal.obj [])
       else
         match objLoop ObjSt.expectKey [] cs with
         | some (l, []) => some (CVal.obj l)
         | _ => none) := by
  unfold parseCVal
  rw [hs]
  rfl

theorem parse_dumpObj (kvs : List (String × String)) :
    parseCVal (dumpObj kvs) = some (CVal.obj kvs) := by
  cases hl : kvs with
  | nil => decide
  | cons p rest =>
      have hne : (p :: rest : List (String × String)) ≠ [] := by simp
      obtain ⟨t, ht⟩ := dumpObjElems_head (p :: rest) hne
      have hdata : (dumpObj (p :: rest)).data =
          '{' :: ((dumpObjElems (p :: rest)).data ++ ['}']) := by
        simp [dumpObj]
      rw [parseCVal_brace _ _ hdata]
      rw [if_neg (by rw [ht]; simp)]
      rw [show (dumpObjElems (p :: rest)).data ++ ['}'] =
           (dumpObjElems (p :: rest)).data ++ '}' :: [] from rfl]
      rw [objLoop_pairs (p :: rest) hne [] []]
      rfl

/-! ### Claim C7 -/

theorem csv_cell_uuids (r : Row) :
    (rowUuidsVal r ≠ CVal.null →
      parseCVal (csvOfRow r).service_uuids = some (rowUuidsVal r)) ∧
    (rowUuidsVal r = CVal.null → (csvOfRow r).service_uuids = "") := by
  cases h : r.service_uuids with
  | none =>
      constructor
      · intro hne
        exact absurd (by simp [rowUuidsVal, h]) hne
      · intro _
        simp [csvOfRow, h]
  | some l =>
      constructor
      · intro _
        simp [csvOfRow, h, rowUuidsVal, parse_dumpArr]
      · intro hnull
        simp [rowUuidsVal, h] at hnull

theorem csv_cell_sdata (r : Row) :
    (rowSDataVal r ≠ CVal.null →
      parseCVal (csvOfRow r).service_data = some (rowSDataVal r)) ∧
    (rowSDataVal r = CVal.null → (csvOfRow r).service_data = "") := by
  cases h : r.service_data with
  | none =>
      constructor
      · intro hne
        exact absurd (by simp [rowSDataVal, h]) hne
      · intro _
        simp [csvOfRow, h]
  | some kvs =>
      constructor
      · intro _
        simp [csvOfRow, h, rowSDataVal, parse_dumpObj]
      · intro hnull
        simp [rowSDataVal, h] at hnull

theorem csv_cell_mdata (r : Row) :
    (rowMDataVal r ≠ CVal.null →
      parseCVal (csvOfRow r).manufacturer_data = some (rowMDataVal r)) ∧
    (rowMDataVal r = CVal.null → (csvOfRow r).manufacturer_data = "") := by
  cases h : r.manufacturer_data with
  | none =>
      constructor
      · intro hne
        exact absurd (by simp [rowMDataVal, h]) hne
      · intro _
        simp [csvOfRow, h]
  | some kvs =>
      constructor
      · intro _
        simp [csvOfRow, h, rowMDataVal, parse_dumpObj]
      · intro hnull
        simp [rowMDataVal, h] at hnull

/-- C7 counterexample: for a record with no composite data the structured
output holds `null` while the CSV cell is the empty string, which is not
decodable JSON text — so "every CSV composite cell decodes to the
corresponding native value" fails (scenario-B store, one Classic tuple
without class support). -/
theorem csv_json_cell_claim_false :
    ((rowsOf (scanClassic true [ctPhone] 0).1).head?.map rowUuidsVal) =
      some CVal.null ∧
    ((csvRowsOf (scanClassic true [ctPhone] 0).1).head?.map
      CsvRow.service_uuids) = some "" ∧
    parseCVal "" = none := by
  decide

/-- C7 (amended): JSON and CSV outputs of the same store have identical
address sequences and one row per record; every *non-null* composite value
appears in the CSV as a JSON text cell that decodes to exactly the native
nested value of the structured output, while an empty composite is `null`
in JSON but an empty (non-JSON) cell in CSV. -/
theorem csv_json_equivalence (st : Store) :
    (csvRowsOf st).map CsvRow.address = (rowsOf st).map Row.address ∧
    (csvRowsOf st).length = (rowsOf st).length ∧
    (∀ (i : Nat) (r : Row) (c : CsvRow),
      (rowsOf st)[i]? = some r → (csvRowsOf st)[i]? = some c →
      ((rowUuidsVal r ≠ CVal.null →
          parseCVal c.service_uuids = some (rowUuidsVal r)) ∧
       (rowUuidsVal r = CVal.null → c.service_uuids = "") ∧
       (rowSDataVal r ≠ CVal.null →
          parseCVal c.service_data = some (rowSDataVal r)) ∧
       (rowSDataVal r = CVal.null → c.service_data = "") ∧
       (rowMDataVal r ≠ CVal.null →
          parseCVal c.manufacturer_data = some (rowMDataVal r)) ∧
       (rowMDataVal r = CVal.null → c.manufacturer_data = ""))) := by
  refine ⟨?_, ?_, ?_⟩
  · rw [csvRowsOf, List.map_map]
    rfl
  · simp [csvRowsOf]
  · intro i r c hr hc
    have hcr : c = csvOfRow r := by
      rw [csvRowsOf, List.getElem?_map, hr] at hc
      exact (Option.some_inj.mp hc).symm
    subst hcr
    exact ⟨(csv_cell_uuids r).1, (csv_cell_uuids r).2,
           (csv_cell_sdata r).1, (csv_cell_sdata r).2,
           (csv_cell_mdata r).1, (csv_cell_mdata r).2⟩

/-- C7 witness: a store with one record holding UUIDs, service data and
manufacturer data; the CSV cells decode back to the native values. -/
theorem csv_json_equivalence_witness :
    parseCVal (csvOfRow (DeviceRecord.to_row recU)).service_uuids =
      some (rowUuidsVal (DeviceRecord.to_row recU)) ∧
    parseCVal (csvOfRow (DeviceRecord.to_row recU)).manufacturer_data =
      some (rowMDataVal (DeviceRecord.to_row recU)) :=
  ⟨((csv_json_equivalence [("AA", recU)]).2.2 0 (DeviceRecord.to_row recU)
      (csvOfRow (DeviceRecord.to_row recU)) rfl rfl).1 (by decide),
   ((csv_json_equivalence [("AA", recU)]).2.2 0 (DeviceRecord.to_row recU)
      (csvOfRow (DeviceRecord.to_row recU)) rfl rfl).2.2.2.2.1 (by decide)⟩

end BtSniffer
